import Mathlib

/-!
Verification of the zerosleap core: the pair-channel array serialization,
the worker-process run loop with its metrics and stop handshake, the
client-side processors, and the multi-object tracker (track lifecycle,
greedy matching, id assignment).

Numeric values that are Python floats are modelled as rationals, Python
ints as integers.  The Kalman filter internals live in the external
filterpy library; the embedding keeps the filter state abstract, as a type
parameter with the operations the tracking code invokes on it.
-/

namespace ZeroSleap

/-- Scalar JSON-style values carried in the args dictionaries of the
channel protocol. -/
inductive JVal where
  | bool (b : Bool)
  | num (q : ℚ)
  | str (s : String)
  | null
deriving DecidableEq, Repr

/-- An args dictionary: string keys mapped to scalar values. -/
abbrev Args := List (String × JVal)

/-- Membership test used by the server loop, mirroring Python `"stop" in args`. -/
def hasKey (k : String) (a : Args) : Bool :=
  a.any (fun p => p.1 == k)

namespace Server

/-- Server metrics dictionary, from `ProcessingServer.init_metrics` /
`ProcessingServer.run` (src/zerosleap/comp/server.py). -/
structure Metrics where
  iteration : ℕ
  overall_time : ℚ
  recv_time : ℚ
  send_time : ℚ
  comp_time : ℚ
deriving DecidableEq, Repr

/-- `ProcessingServer.init_metrics`: iteration 1, overall_time 0.000001,
all other counters 0. -/
def init_metrics : Metrics :=
  { iteration := 1
    overall_time := 1 / 1000000
    recv_time := 0
    send_time := 0
    comp_time := 0 }

/-- One incoming buffer request as seen by the run loop, together with the
wall-clock durations of the receive, compute, send and remaining loop
sections of the iteration that handles it. -/
structure Request (δ : Type) where
  args : Args
  data : δ
  recvDur : ℚ
  compDur : ℚ
  sendDur : ℚ
  extraDur : ℚ
deriving DecidableEq, Repr

/-- Result of a `process` call: the loop only supports a raw array (not
sent back) or a dictionary (sent back with `send_dict`). -/
inductive PResult (α : Type) where
  | arr
  | dict (d : α)
deriving DecidableEq, Repr

/-- Observable outcome of a run loop execution: the dictionaries sent back
to the client, each paired with the metrics state at the moment
`send_dict` serialized it; the log of `process` invocations; the final
metrics; and whether the loop exited through the stop branch. -/
structure RunRes (δ α : Type) where
  sent : List (α × Metrics)
  calls : List (δ × Args)
  metrics : Metrics
  stopped : Bool
deriving DecidableEq, Repr

/-- `ProcessingServer.run` (src/zerosleap/comp/server.py, lines 62-119),
driven by the list of requests the client will send.  Per iteration:
increment the iteration counter, receive, reset all metrics if the single
receive exceeded 1 second, accumulate `recv_time`, exit if `"stop"` is a
key of args, otherwise call `process`, accumulate `comp_time`, send a dict
result (an array result is silently not sent), accumulate `send_time` and
`overall_time`, and loop. -/
def serverRun {δ α : Type} (process : δ → Args → PResult α) :
    Metrics → List (Request δ) → RunRes δ α
  | m, [] => ⟨[], [], m, false⟩
  | m, r :: rest =>
    let m1 : Metrics := { m with iteration := m.iteration + 1 }
    let m2 : Metrics := if 1 < r.recvDur then init_metrics else m1
    let m3 : Metrics := { m2 with recv_time := m2.recv_time + r.recvDur }
    if hasKey "stop" r.args then ⟨[], [], m3, true⟩
    else
      let out := process r.data r.args
      let m4 : Metrics := { m3 with comp_time := m3.comp_time + r.compDur }
      let sentHere : List (α × Metrics) :=
        match out with
        | PResult.arr => []
        | PResult.dict d => [(d, m4)]
      let m5 : Metrics := { m4 with send_time := m4.send_time + r.sendDur }
      let m6 : Metrics :=
        { m5 with overall_time :=
            m5.overall_time + (r.recvDur + r.compDur + r.sendDur + r.extraDur) }
      let res := serverRun process m6 rest
      ⟨sentHere ++ res.sent, (r.data, r.args) :: res.calls, res.metrics, res.stopped⟩

/-- The load fraction computed client-side by `server_metrics`
(src/zerosleap/comp/processor.py): `comp_time / overall_time`. -/
def loadOf (m : Metrics) : ℚ := m.comp_time / m.overall_time

/-- Concrete request used to exhibit a delivered metrics snapshot whose
load fraction exceeds 1. -/
def c8req : Request Unit :=
  { args := [("metrics", JVal.bool true)]
    data := ()
    recvDur := 0
    compDur := 1
    sendDur := 0
    extraDur := 0 }

/-- A concrete stop request with `{"stop": true}`. -/
def c6req : Request Unit :=
  { args := [("stop", JVal.bool true)]
    data := ()
    recvDur := 0
    compDur := 0
    sendDur := 0
    extraDur := 0 }

/-- A concrete request whose args contain the key `"stop"` with value
`false`. -/
def c10req : Request Unit :=
  { args := [("stop", JVal.bool false)]
    data := ()
    recvDur := 0
    compDur := 0
    sendDur := 0
    extraDur := 0 }

/-- The `process` function of a worker that always returns the dictionary 0. -/
def constDictProcess : Unit → Args → PResult ℕ := fun _ _ => PResult.dict 0

/-- The metrics snapshot the loop delivers for `c8req` as first request. -/
def c8snap : Metrics :=
  { iteration := 2
    overall_time := 1 / 1000000
    recv_time := 0
    send_time := 0
    comp_time := 1 }

end Server

namespace Client

/-- A result dictionary sent by the track processing server, as the client
sees it: an optional `"tracks"` entry (track id mapped to the current
estimate, a list of landmark positions) and the `"metrics"` entry, which
the client reads unconditionally. -/
structure TrackMsg where
  tracksVal : Option (List (ℕ × List (ℚ × ℚ)))
  metricsVal : Server.Metrics
deriving DecidableEq, Repr

/-- Client-side state of a `TrackProcessor`
(src/zerosleap/comp/processor.py): the `_send_flag` / `_reset_flag`
synchronization flags, the accumulated `tracks` history dictionary, the
cached `_server_metrics`, and the queue of results already sent by the
server but not yet received. -/
structure TPState where
  send_flag : Bool
  reset_flag : Bool
  tracks : List (ℕ × List (List (ℚ × ℚ)))
  server_metrics : Option Server.Metrics
  incoming : List TrackMsg
deriving DecidableEq, Repr

/-- Outcome of a client `recv` call: returned `None` without touching the
socket, blocked forever on `recv_dict`, or received and returned an
output together with the new client state. -/
inductive RecvRes (σ ω : Type) where
  | noop (st : σ)
  | blocked
  | got (out : ω) (st : σ)
deriving DecidableEq, Repr

/-- The `tracks` update loop of `TrackProcessor.recv`: for each received
(id, point-list) pair, append to the history under that id, or start a new
history entry. -/
def mergeTracks (acc : List (ℕ × List (List (ℚ × ℚ))))
    (pts : List (ℕ × List (ℚ × ℚ))) : List (ℕ × List (List (ℚ × ℚ))) :=
  pts.foldl
    (fun acc kp =>
      if acc.any (fun e => e.1 == kp.1) then
        acc.map (fun e => if e.1 == kp.1 then (e.1, e.2 ++ [kp.2]) else e)
      else acc ++ [(kp.1, [kp.2])])
    acc

/-- Output dictionary returned by `TrackProcessor.recv`. -/
structure TrackOut where
  tracksOut : Option (List (ℕ × List (List (ℚ × ℚ))))
deriving DecidableEq, Repr

/-- `TrackProcessor.recv` (src/zerosleap/comp/processor.py, lines
230-264).  Note that, unlike `VideoProcessor.recv`, the code performs the
blocking `recv_dict` immediately: there is no `if not self._send_flag:
return None` guard, although the docstring promises one. -/
def trackRecv (st : TPState) : RecvRes TPState TrackOut :=
  match st.incoming with
  | [] => RecvRes.blocked
  | msg :: rest =>
    let tracks2 :=
      match msg.tracksVal with
      | some pts => mergeTracks st.tracks pts
      | none => st.tracks
    let outT :=
      match msg.tracksVal with
      | some _ => some tracks2
      | none => none
    RecvRes.got ⟨outT⟩
      { st with
        tracks := tracks2
        server_metrics := some msg.metricsVal
        send_flag := false
        reset_flag := false
        incoming := rest }

/-- A result dictionary sent by the video processing server: optional
peaks (points, peak values, frame indices), optional flattened heatmaps,
and the metrics entry. -/
structure VideoMsg where
  peaksVal : Option (List (ℚ × ℚ) × List ℚ × List ℕ)
  heatmapsVal : Option (List ℚ)
  metricsVal : Server.Metrics
deriving DecidableEq, Repr

/-- Client-side state of a `VideoProcessor`. -/
structure VPState where
  send_flag : Bool
  server_metrics : Option Server.Metrics
  incoming : List VideoMsg
deriving DecidableEq, Repr

/-- The un-flattening loop of `VideoProcessor.recv`: distribute each peak
point into the bucket of its frame index; an index outside the bucket
array is a fatal IndexError. -/
def groupPeaksAux : List (ℕ × (ℚ × ℚ)) → List (Option (List (ℚ × ℚ))) →
    Except String (List (Option (List (ℚ × ℚ))))
  | [], acc => Except.ok acc
  | (idx, pt) :: rest, acc =>
    if idx < acc.length then
      let cur := (acc.getD idx none).getD []
      groupPeaksAux rest (acc.set idx (some (cur ++ [pt])))
    else Except.error "IndexError"

/-- `peak_points` construction in `VideoProcessor.recv`: one bucket per
distinct frame index, initially `None`. -/
def groupPeaks (frameIdx : List ℕ) (pts : List (ℚ × ℚ)) :
    Except String (List (Option (List (ℚ × ℚ)))) :=
  groupPeaksAux (frameIdx.zip pts) (List.replicate frameIdx.dedup.length none)

/-- Output dictionary returned by `VideoProcessor.recv`. -/
structure VideoOut where
  peaksOut : Option (List (Option (List (ℚ × ℚ))))
  heatmapsOut : Option (List ℚ)
deriving DecidableEq, Repr

/-- `VideoProcessor.recv` (src/zerosleap/comp/processor.py, lines
101-143): returns `None` when `_send_flag` is unset, otherwise performs
the blocking receive, un-flattens the peaks, stores the heatmaps, caches
the server metrics and clears the flag. -/
def videoRecv (st : VPState) : Except String (RecvRes VPState VideoOut) :=
  if st.send_flag = false then Except.ok (RecvRes.noop st)
  else
    match st.incoming with
    | [] => Except.ok RecvRes.blocked
    | msg :: rest => do
      let peaksOut ←
        match msg.peaksVal with
        | some pv => (groupPeaks pv.2.2 pv.1).map some
        | none => Except.ok none
      Except.ok (RecvRes.got ⟨peaksOut, msg.heatmapsVal⟩
        { st with
          send_flag := false
          server_metrics := some msg.metricsVal
          incoming := rest })

/-- Concrete failing input for the missing `_send_flag` guard: a
`TrackProcessor` whose last send has already been answered (no send
pending) but whose socket holds a message. -/
def c7msg : TrackMsg := ⟨some [(1, [(0, 0)])], Server.init_metrics⟩

/-- A client state with `_send_flag = False` and one readable message. -/
def c7state : TPState := ⟨false, false, [], none, [c7msg]⟩

end Client

namespace Shape

/-- A raw numpy array at the granularity `validate_points_shape` cares
about: its shape and flat contents. -/
structure PointsArray where
  shape : List ℕ
  flat : List ℚ
deriving DecidableEq, Repr

/-- `validate_points_shape` (src/zerosleap/processing/tracking/track.py,
lines 259-281): a `(2,)` array is reshaped to `(1, 2)`; otherwise the
code reads `shape[1]` (an IndexError when the rank is below 2) and raises
an AssertionError unless the array is rank 2 with second dimension 2. -/
def validate_points_shape (a : PointsArray) : Except String PointsArray :=
  if a.shape = [2] then Except.ok ⟨[1, 2], a.flat⟩
  else
    match a.shape.get? 1 with
    | none => Except.error "IndexError: tuple index out of range"
    | some s1 =>
      if s1 ≠ 2 ∨ 2 < a.shape.length then
        Except.error "Not matched shape for detection points"
      else Except.ok a

/-- A `Detection` before any validation: `Detection.__init__`
(src/zerosleap/processing/tracking/track.py, lines 19-21) merely stores
its arguments. -/
structure RawDetection where
  points : PointsArray
  confidence : Option PointsArray
deriving DecidableEq, Repr

/-- `Detection.__init__`: total, performs no shape checking. -/
def mkRawDetection (points : PointsArray) (confidence : Option PointsArray) :
    RawDetection :=
  ⟨points, confidence⟩

/-- The shape validation performed by `Track.__init__` on the detection it
is built from: `validate_points_shape(detections.points).shape[0]` gives
the track's fixed `points_count`. -/
def trackInitPointsCount (d : RawDetection) : Except String ℕ :=
  (validate_points_shape d.points).map (fun p => p.shape.headD 0)

/-- A 3-by-3 points array: not rank 2 with 2 columns. -/
def badPoints : PointsArray := ⟨[3, 3], List.replicate 9 0⟩

/-- A rank-1 length-2 points array. -/
def vecPoints : PointsArray := ⟨[2], [5, 7]⟩

end Shape

namespace Conn

/-- C-order (row-major) strides of a shape, in elements: the stride of a
dimension is the product of the dimensions after it. -/
def cStrides : List ℕ → List ℤ
  | [] => []
  | _ :: rest => ((rest.prod : ℕ) : ℤ) :: cStrides rest

/-- All multi-indices of a shape, enumerated in row-major order. -/
def multiIndices : List ℕ → List (List ℕ)
  | [] => [[]]
  | n :: rest => (List.range n).flatMap (fun i => (multiIndices rest).map (i :: ·))

/-- Buffer offset (in elements) of a multi-index under given strides. -/
def offsetOf (strides : List ℤ) (ix : List ℕ) : ℤ :=
  (List.zipWith (fun s i => s * (i : ℤ)) strides ix).sum

/-- Read one element of a buffer at a (possibly negative) offset. -/
def elemAt (buf : List ℚ) (off : ℤ) : ℚ :=
  if 0 ≤ off then buf.getD off.toNat 0 else 0

/-- A numpy ndarray as the channel sees it: a dtype tag, a shape, element
strides, and the underlying buffer.  A view (e.g. a transpose or a slice)
has non-C strides over the same buffer. -/
structure NDArray where
  dtype : String
  shape : List ℕ
  strides : List ℤ
  buffer : List ℚ
deriving DecidableEq, Repr

/-- The logical elements of an array, read off in row-major order — what
the values of the array are, independent of memory layout. -/
def gather (a : NDArray) : List ℚ :=
  (multiIndices a.shape).map (fun ix => elemAt a.buffer (offsetOf a.strides ix))

/-- The `C_CONTIGUOUS` flag: the strides are the C-order strides of the
shape. -/
def isCContiguous (a : NDArray) : Bool :=
  a.strides == cStrides a.shape

/-- `np.ascontiguousarray`: copy the logical elements into a fresh
C-ordered buffer. -/
def ascontiguousarray (a : NDArray) : NDArray :=
  { dtype := a.dtype
    shape := a.shape
    strides := cStrides a.shape
    buffer := gather a }

/-- The two-frame buffer message of the wire protocol: the JSON metadata
frame `{args, dtype, shape}` followed by the raw payload frame. -/
structure BufferMessage (π : Type) where
  args : π
  dtype : String
  shape : List ℕ
  payload : List ℚ
deriving DecidableEq, Repr

/-- `PairNode.send_array` (src/zerosleap/conn/pair.py, lines 42-60)
composed with `SerializingSocket.send_array`
(src/zerosleap/conn/serialize.py): an already contiguous array is framed
as-is; a non-contiguous one is first copied with `np.ascontiguousarray`. -/
def send_array {π : Type} (args : π) (data : NDArray) : BufferMessage π :=
  if isCContiguous data then
    ⟨args, data.dtype, data.shape, data.buffer⟩
  else
    let image := ascontiguousarray data
    ⟨args, image.dtype, image.shape, image.buffer⟩

/-- `PairNode.recv_array` / `SerializingSocket.recv_array`: rebuild the
array from the payload with `np.frombuffer(...).reshape(shape)`; the
reshape fails unless the payload size matches the shape. -/
def recv_array {π : Type} (msg : BufferMessage π) : Option (π × NDArray) :=
  if msg.payload.length = msg.shape.prod then
    some (msg.args, ⟨msg.dtype, msg.shape, cStrides msg.shape, msg.payload⟩)
  else none

/-- Equality of two arrays in values, dtype and shape (ignoring layout). -/
def valuesEq (a b : NDArray) : Prop :=
  a.dtype = b.dtype ∧ a.shape = b.shape ∧ gather a = gather b

/-- A concrete non-contiguous array: the transpose of a 2-by-3 C-ordered
array (shape [3, 2], strides [1, 3]). -/
def transposedArr : NDArray :=
  ⟨"float64", [3, 2], [1, 3], [10, 11, 12, 20, 21, 22]⟩

end Conn

namespace Tracking

/-- A validated detection: a list of (x, y) landmark points with optional
per-point confidence scores
(src/zerosleap/processing/tracking/track.py, `Detection`). -/
structure Detection where
  points : List (ℚ × ℚ)
  confidence : Option (List ℚ)
deriving DecidableEq, Repr

/-- The operations the track invokes on its Kalman filter.  The filter
numerics live in the external filterpy library, so the filter state is
kept abstract: `initF` is `setup_filter`, `predictF` is
`filter.predict()`, `updateF` is `filter.update(z, None, H)` with the
per-coordinate 0/1 selection mask that `add` builds for `H`, and
`zeroVelF` zeroes the velocity entries selected by a per-coordinate
mask (the cold-start guard). -/
structure KF (φ : Type) where
  initF : List ℚ → φ
  predictF : φ → φ
  updateF : List ℚ → List Bool → φ → φ
  zeroVelF : List Bool → φ → φ

/-- A track (src/zerosleap/processing/tracking/track.py, `Track`),
with the filter state abstracted to `φ`. -/
structure Track (φ : Type) where
  age : ℕ
  confidence_threshold : ℚ
  points_count : ℕ
  min_drop_life : ℤ
  max_drop_life : ℤ
  point_min_drop_life : ℤ
  point_max_drop_life : ℤ
  detection_count : ℤ
  point_detection_count : List ℤ
  last_distance : Option ℚ
  current_min_distance : Option ℚ
  last_detection : Detection
  initializing_flag : Bool
  id : Option ℕ
  filt : φ
  dim_z : ℕ
  detected_at_least_once_points : List Bool
deriving DecidableEq, Repr

/-- Flatten (x, y) points into the measurement vector order. -/
def flattenPoints (pts : List (ℚ × ℚ)) : List ℚ :=
  pts.flatMap (fun p => [p.1, p.2])

/-- `Track.__init__`: build a track from its first detection. -/
def mkTrack {φ : Type} (kf : KF φ) (d : Detection)
    (min_drop_life max_drop_life : ℤ) (confidence_threshold : ℚ) : Track φ :=
  let pc := d.points.length
  let pmin : ℤ := ⌊(min_drop_life : ℚ) / 4⌋
  let pmax0 : ℤ := ⌈(max_drop_life : ℚ) / 4⌉
  let pmax : ℤ := if pmax0 - pmin < 1 then pmin + 1 else pmax0
  { age := 0
    confidence_threshold := confidence_threshold
    points_count := pc
    min_drop_life := min_drop_life
    max_drop_life := max_drop_life
    point_min_drop_life := pmin
    point_max_drop_life := pmax
    detection_count := min_drop_life + 1
    point_detection_count := List.replicate pc pmin
    last_distance := none
    current_min_distance := none
    last_detection := d
    initializing_flag := true
    id := none
    filt := kf.initF (flattenPoints d.points)
    dim_z := 2 * pc
    detected_at_least_once_points := List.replicate pc false }

/-- `Track.tracker_step`: decrement the track and per-point life counts,
increment the age, advance the filter with a predict-only step. -/
def tracker_step {φ : Type} (kf : KF φ) (t : Track φ) : Track φ :=
  { t with
    detection_count := t.detection_count - 1
    point_detection_count := t.point_detection_count.map (fun c => c - 1)
    age := t.age + 1
    filt := kf.predictF t.filt }

/-- The lazy `Track.initializing` property read.  `cnt` models the
process-wide `Track.count` class counter: when a still-initializing track
is read with `detection_count > (min_drop_life + max_drop_life) / 2`, the
flag is cleared, the counter is incremented and its new value becomes the
track's permanent id.  Returns the value the property read yields, the
updated track and the updated counter. -/
def initializingRead {φ : Type} (t : Track φ) (cnt : ℕ) :
    Bool × Track φ × ℕ :=
  if t.initializing_flag ∧
      ((t.min_drop_life + t.max_drop_life : ℚ) / 2 < (t.detection_count : ℚ)) then
    (false, { t with initializing_flag := false, id := some (cnt + 1) }, cnt + 1)
  else
    (t.initializing_flag, t, cnt)

/-- `Track.add` (src/zerosleap/processing/tracking/track.py, lines
182-256): store the detection; add 2 to `detection_count` only when it is
strictly below `max_drop_life`; build the per-point confidence mask; add 2
to the selected per-point counts; clamp every per-point count from above
by `point_max_drop_life` and then from below by 0; update the filter with
the masked measurement function; zero the velocities of never-yet-detected
points; extend the detected-at-least-once mask. -/
def Track.add {φ : Type} (kf : KF φ) (t : Track φ) (detection : Detection) :
    Track φ :=
  let t1 := { t with last_detection := detection }
  let t2 :=
    if t1.detection_count < t1.max_drop_life then
      { t1 with detection_count := t1.detection_count + 2 }
    else t1
  let mask : List Bool :=
    match detection.confidence with
    | some conf => conf.map (fun c => decide (t2.confidence_threshold < c))
    | none => List.replicate t2.points_count true
  let pdc1 : List ℤ :=
    match detection.confidence with
    | some conf =>
      List.zipWith (fun c m => if m then c + 2 else c)
        t2.point_detection_count
        (conf.map (fun c => decide (t2.confidence_threshold < c)))
    | none => t2.point_detection_count.map (fun c => c + 2)
  let pdc2 := pdc1.map (fun c =>
    if t2.point_max_drop_life ≤ c then t2.point_max_drop_life else c)
  let pdc3 := pdc2.map (fun c => if c < 0 then 0 else c)
  let coordMask := mask.flatMap (fun m => [m, m])
  let filt1 := kf.updateF (flattenPoints detection.points) coordMask t2.filt
  let notDetectedCoord :=
    t2.detected_at_least_once_points.flatMap (fun m => [!m, !m])
  let filt2 := kf.zeroVelF notDetectedCoord filt1
  let dalop := List.zipWith (fun a b => a || b)
    t2.detected_at_least_once_points mask
  { t2 with
    point_detection_count := pdc3
    filt := filt2
    detected_at_least_once_points := dalop }

/-- `Track.has_momentum`: the track is kept alive while
`detection_count >= min_drop_life`. -/
def hasMomentum {φ : Type} (t : Track φ) : Bool :=
  decide (t.min_drop_life ≤ t.detection_count)

/-- Clipping of the distance matrix entries in `Tracker.update_tracks`: a
true distance above the threshold is replaced by the `threshold + 1`
sentinel. -/
def clipDistance (thr dist : ℚ) : ℚ :=
  if thr < dist then thr + 1 else dist

/-- `np.ndarray.argmin` over the row-major flattened matrix: index and
value of the first occurrence of the minimum. -/
def argminAux : ℕ → ℕ × ℚ → List ℚ → ℕ × ℚ
  | _, best, [] => best
  | k, best, x :: xs =>
    if x < best.2 then argminAux (k + 1) (k, x) xs
    else argminAux (k + 1) best xs

/-- First-occurrence argmin of a flat matrix (`none` on an empty one). -/
def argminFlat : List ℚ → Option (ℕ × ℚ)
  | [] => none
  | x :: xs => some (argminAux 1 (0, x) xs)

/-- Row/column invalidation in `Tracker.match`: set every entry of row `d`
and column `t` (of an `m`-column row-major matrix) to the sentinel `s`,
counting positions from `k`. -/
def sentinelize (s : ℚ) (m d t : ℕ) : ℕ → List ℚ → List ℚ
  | _, [] => []
  | k, x :: xs =>
    (if k / m = d ∨ k % m = t then s else x) :: sentinelize s m d t (k + 1) xs

/-- Number of matrix entries strictly below the threshold; each loop
iteration of `Tracker.match` invalidates at least one, so this bounds the
number of iterations. -/
def countBelow (thr : ℚ) (l : List ℚ) : ℕ :=
  (l.filter (fun x => decide (x < thr))).length

/-- The greedy matching loop of `Tracker.match`
(src/zerosleap/processing/tracking/tracker.py, lines 185-204): while the
global minimum of the matrix is strictly below the threshold, accept the
(detection, track) pair at its first-occurrence position and invalidate
that row and column.  The fuel argument only bounds the recursion; with
fuel `countBelow thr flat` the loop always exits through its own
condition (see `matchLoop_fuel_stable`). -/
def matchLoop (thr : ℚ) (m : ℕ) : ℕ → List ℚ → List (ℕ × ℕ)
  | 0, _ => []
  | fuel + 1, flat =>
    match argminFlat flat with
    | none => []
    | some (k, v) =>
      if v < thr then
        (k / m, k % m) ::
          matchLoop thr m fuel (sentinelize (thr + 1) m (k / m) (k % m) 0 flat)
      else []

/-- `Tracker.match` on an `m`-column row-major matrix: the list of
accepted (detection index, track index) pairs, in acceptance order. -/
def Tracker.match (thr : ℚ) (m : ℕ) (flat : List ℚ) : List (ℕ × ℕ) :=
  if 0 < flat.length then matchLoop thr m (countBelow thr flat) flat else []

/-- The clipped distance matrix built by `Tracker.update_tracks` for an
abstract distance function `D`, as a row-major flat list
(`nd` detections by `m` tracks). -/
def buildFlat (thr : ℚ) (D : ℕ → ℕ → ℚ) (nd m : ℕ) : List ℚ :=
  (List.range (nd * m)).map (fun k => clipDistance thr (D (k / m) (k % m)))

/-- Select the elements of a list marked `true` by a parallel mask. -/
def maskSelect : List Bool → List α → List α
  | b :: bs, x :: xs => if b then x :: maskSelect bs xs else maskSelect bs xs
  | _, _ => []

/-- Write an updated sublist back into the positions marked `true` by the
mask, leaving the other elements in place.  Together with `maskSelect`
this models Python's in-place mutation of the tracks selected into a
sublist. -/
def scatterMask : List Bool → List α → List α → List α
  | [], xs, _ => xs
  | _ :: _, [], _ => []
  | b :: bs, x :: xs, news =>
    if b then news.headD x :: scatterMask bs xs news.tail
    else x :: scatterMask bs xs news

/-- Apply a function to the element at one position of a list. -/
def modifyAt (i : ℕ) (f : α → α) : List α → List α
  | [] => []
  | x :: xs =>
    match i with
    | 0 => f x :: xs
    | j + 1 => x :: modifyAt j f xs

/-- Column minimum of the clipped distance matrix (numpy
`distance_matrix.min(axis=0)` for the column of one track); the default is
never used because the detection list is non-empty where this is called. -/
def colMin {φ : Type} (thr : ℚ) (dist : Detection → Track φ → ℚ)
    (dets : List Detection) (trk : Track φ) : ℚ :=
  ((dets.map (fun det => clipDistance thr (dist det trk))).min?).getD (thr + 1)

/-- The detection used as an out-of-range default when reading the matched
detection by index (the index is always in range). -/
def dummyDetection : Detection := ⟨[], none⟩

/-- `Tracker.update_tracks` (src/zerosleap/processing/tracking/tracker.py,
lines 87-168) on the sublist of tracks handed to it: build the clipped
distance matrix, refresh `current_min_distance` (skipped when the matrix
is all zeros, mirroring `distance_matrix.any()`), run the greedy match,
`add` each matched detection to its track recording `last_distance`, and
return the updated tracks with the unmatched detections. -/
def update_tracks {φ : Type} (dist : Detection → Track φ → ℚ) (thr : ℚ)
    (kf : KF φ) (tracks : List (Track φ)) (detections : Option (List Detection)) :
    List (Track φ) × List Detection :=
  match detections with
  | none => (tracks, [])
  | some dets =>
    if dets.length = 0 then (tracks, [])
    else
      let m := tracks.length
      let flat : List ℚ :=
        dets.flatMap (fun det => tracks.map (fun trk => clipDistance thr (dist det trk)))
      let tracks2 :=
        if flat.any (fun x => !(x == 0)) then
          tracks.map (fun trk =>
            let mn := colMin thr dist dets trk
            { trk with current_min_distance := if mn < thr then some mn else none })
        else tracks
      let pairs := Tracker.match thr m flat
      if 0 < pairs.length then
        let matchedDetIdx := pairs.map (fun p => p.1)
        let unmatched0 :=
          (dets.enum.filter (fun p => !(matchedDetIdx.contains p.1))).map (fun p => p.2)
        let applyPair := fun (acc : List (Track φ) × List Detection) (pr : ℕ × ℕ) =>
          let md := flat.getD (pr.1 * m + pr.2) 0
          let det := dets.getD pr.1 dummyDetection
          if md < thr then
            (modifyAt pr.2
              (fun trk => { Track.add kf trk det with last_distance := some md })
              acc.1,
             acc.2)
          else (acc.1, acc.2 ++ [det])
        pairs.foldl applyPair (tracks2, unmatched0)
      else (tracks2, dets)

/-- The tracker state (src/zerosleap/processing/tracking/tracker.py):
the live tracks, the configuration, and the id counter.  `trackCount`
models the `Track.count` class counter, which `Tracker.__init__` resets
to 0, as tracker-owned state. -/
structure TrackerState (φ : Type) where
  tracked_objects : List (Track φ)
  min_drop_life : ℤ
  max_drop_life : ℤ
  distance_threshold : ℚ
  confidence_threshold : ℚ
  trackCount : ℕ
deriving DecidableEq, Repr

/-- `Tracker.__init__` with its defaults. -/
def mkTracker {φ : Type} (distance_threshold : ℚ) (min_drop_life max_drop_life : ℤ)
    (confidence_threshold : ℚ) : TrackerState φ :=
  { tracked_objects := []
    min_drop_life := min_drop_life
    max_drop_life := max_drop_life
    distance_threshold := distance_threshold
    confidence_threshold := confidence_threshold
    trackCount := 0 }

/-- A list comprehension reading `o.initializing` on every track in order:
returns the updated tracks, the updated id counter, and the property
values read. -/
def readInitAll {φ : Type} : ℕ → List (Track φ) → List (Track φ) × ℕ × List Bool
  | cnt, [] => ([], cnt, [])
  | cnt, t :: ts =>
    let r := initializingRead t cnt
    let rest := readInitAll r.2.2 ts
    (r.2.1 :: rest.1, rest.2.1, r.1 :: rest.2.2)

/-- `Tracker.update` (src/zerosleap/processing/tracking/tracker.py, lines
46-85): prune tracks without momentum, step every survivor, match
detections against the non-initializing tracks, then the remaining
detections against the initializing tracks, spawn a new track per
detection still unmatched, and return the tracks whose (lazily read)
initializing property is false.  Returns the new tracker state and the
returned track list. -/
def Tracker.update {φ : Type} (kf : KF φ) (dist : Detection → Track φ → ℚ)
    (st : TrackerState φ) (detections : Option (List Detection)) :
    TrackerState φ × List (Track φ) :=
  let live0 := st.tracked_objects.filter hasMomentum
  let live1 := live0.map (tracker_step kf)
  let r1 := readInitAll st.trackCount live1
  let live2 := r1.1
  let cnt1 := r1.2.1
  let mask1 := r1.2.2.map (fun b => !b)
  let u1 := update_tracks dist st.distance_threshold kf (maskSelect mask1 live2) detections
  let live3 := scatterMask mask1 live2 u1.1
  let r2 := readInitAll cnt1 live3
  let live4 := r2.1
  let cnt2 := r2.2.1
  let mask2 := r2.2.2
  let u2 := update_tracks dist st.distance_threshold kf (maskSelect mask2 live4) (some u1.2)
  let live5 := scatterMask mask2 live4 u2.1
  let live6 := live5 ++ u2.2.map (fun d =>
    mkTrack kf d st.min_drop_life st.max_drop_life st.confidence_threshold)
  let r3 := readInitAll cnt2 live6
  let live7 := r3.1
  let cnt3 := r3.2.1
  let mask3 := r3.2.2.map (fun b => !b)
  ({ st with tracked_objects := live7, trackCount := cnt3 }, maskSelect mask3 live7)

/-- Modelled from the spec, step 1 of the update cycle: "drop every track
whose `detection_count < min_drop_life` (no momentum) from the live set —
permanent removal". -/
def pruneSpec {φ : Type} (ts : List (Track φ)) : List (Track φ) :=
  ts.filter (fun o => !(decide (o.detection_count < o.min_drop_life)))

/-- Modelled from the spec, step 2 of the update cycle: "for every
remaining track, decrement `detection_count` and every entry of
`point_detection_count` by 1, increment `age`, and advance its filter
state with a predict-only step". -/
def predictSpec {φ : Type} (kf : KF φ) (o : Track φ) : Track φ :=
  { o with
    detection_count := o.detection_count - 1
    point_detection_count := o.point_detection_count.map (fun c => c - 1)
    age := o.age + 1
    filt := kf.predictF o.filt }

/-- Modelled from the spec, section 4.4: the update cycle as the spec
words it — prune, predict, match pass 1 against the already
non-initializing tracks (selected by their stored flag after the lazy
reads), match pass 2 of the remaining unmatched detections against the
still-initializing tracks, spawn a brand-new initializing track per
detection still unmatched, and return only the tracks that are no longer
initializing. -/
def updateSpec {φ : Type} (kf : KF φ) (dist : Detection → Track φ → ℚ)
    (st : TrackerState φ) (detections : Option (List Detection)) :
    TrackerState φ × List (Track φ) :=
  let pruned := pruneSpec st.tracked_objects
  let predicted := pruned.map (predictSpec kf)
  let r1 := readInitAll st.trackCount predicted
  let stable := r1.1.filter (fun o => !o.initializing_flag)
  let u1 := update_tracks dist st.distance_threshold kf stable detections
  let live3 := scatterMask (r1.1.map (fun o => !o.initializing_flag)) r1.1 u1.1
  let r2 := readInitAll r1.2.1 live3
  let fresh := r2.1.filter (fun o => o.initializing_flag)
  let u2 := update_tracks dist st.distance_threshold kf fresh (some u1.2)
  let live5 := scatterMask (r2.1.map (fun o => o.initializing_flag)) r2.1 u2.1
  let spawned := u2.2.map (fun d =>
    mkTrack kf d st.min_drop_life st.max_drop_life st.confidence_threshold)
  let r3 := readInitAll r2.2.1 (live5 ++ spawned)
  ({ st with tracked_objects := r3.1, trackCount := r3.2.1 },
   r3.1.filter (fun o => !o.initializing_flag))

/-- The ids already assigned to a list of tracks. -/
def assignedIds {φ : Type} (ts : List (Track φ)) : List ℕ :=
  ts.filterMap (fun t => t.id)

/-- Well-formedness of one track's id relative to the tracker's id
counter: an initializing track has no id yet; a non-initializing track
has an id between 1 and the counter. -/
def trackIdOK {φ : Type} (cnt : ℕ) (t : Track φ) : Prop :=
  (t.initializing_flag = true → t.id = none) ∧
  (t.initializing_flag = false → ∃ i, t.id = some i ∧ 1 ≤ i ∧ i ≤ cnt)

/-- Tracker invariant: assigned ids are pairwise distinct and every track
id is well-formed relative to the id counter. -/
def trackerInv {φ : Type} (st : TrackerState φ) : Prop :=
  (assignedIds st.tracked_objects).Nodup ∧
  ∀ t ∈ st.tracked_objects, trackIdOK st.trackCount t

/-- Tracks relate by `idEq` when they carry the same id and the same
initializing flag: all matching-phase operations preserve this. -/
def idEq {φ : Type} (a b : Track φ) : Prop :=
  b.id = a.id ∧ b.initializing_flag = a.initializing_flag

/-- The trivial filter model: enough to run the tracking pipeline on
concrete inputs where the filter numerics are irrelevant. -/
def kfUnit : KF Unit :=
  { initF := fun _ => ()
    predictF := fun _ => ()
    updateF := fun _ _ _ => ()
    zeroVelF := fun _ _ => () }

/-- A single confidence-free detection at the origin. -/
def det00 : Detection := ⟨[(0, 0)], none⟩

/-- A freshly constructed tracker with the defaults of
`TrackProcessingServer.build`. -/
def st0 : TrackerState Unit := mkTracker 20 10 25 0

/-- The constant-zero distance function, for concrete runs. -/
def dist0 : Detection → Track Unit → ℚ := fun _ _ => 0

/-- A fresh track from `det00` with `min_drop_life = 10`,
`max_drop_life = 25`: its `detection_count` starts at 11. -/
def t0 : Track Unit := mkTrack kfUnit det00 10 25 0

/-- One matched cycle at track level: a `tracker_step` followed by a
successful `add`, exactly what `Tracker.update` performs on a surviving
matched track. -/
def stepAdd (t : Track Unit) : Track Unit :=
  Track.add kfUnit (tracker_step kfUnit t) det00

/-- Iterate a function, by structural recursion so that concrete runs
evaluate. -/
def iterN {α : Type} (f : α → α) : ℕ → α → α
  | 0, a => a
  | n + 1, a => iterN f n (f a)

end Tracking

/-! ## Theorems -/

open Server Client Shape Tracking in
/-- Claim C6: when the worker's run loop receives a buffer request whose
args is `{"stop": true}`, the loop exits without calling `process` and
without sending any response message for that request, so no message is
emitted from the moment the stop request is received. -/
theorem run_stops_on_stop_true {δ α : Type} (process : δ → Args → Server.PResult α)
    (m : Server.Metrics) (r : Server.Request δ) (rest : List (Server.Request δ))
    (h : r.args = [("stop", JVal.bool true)]) :
    (Server.serverRun process m (r :: rest)).sent = [] ∧
    (Server.serverRun process m (r :: rest)).calls = [] ∧
    (Server.serverRun process m (r :: rest)).stopped = true := by
  simp [Server.serverRun, hasKey, h]

/-- Witness for C6 at a concrete stop request. -/
theorem run_stops_on_stop_true_witness :
    Server.c6req.args = [("stop", JVal.bool true)] ∧
    ((Server.serverRun Server.constDictProcess Server.init_metrics
        [Server.c6req]).sent = [] ∧
     (Server.serverRun Server.constDictProcess Server.init_metrics
        [Server.c6req]).calls = [] ∧
     (Server.serverRun Server.constDictProcess Server.init_metrics
        [Server.c6req]).stopped = true) :=
  ⟨rfl, run_stops_on_stop_true Server.constDictProcess Server.init_metrics
    Server.c6req [] rfl⟩

/-- Claim C10: the run loop terminates whenever the received args mapping
contains the key `"stop"`, regardless of the associated value; no
`process` call happens and no response is sent. -/
theorem run_stops_on_any_stop_key {δ α : Type} (process : δ → Args → Server.PResult α)
    (m : Server.Metrics) (r : Server.Request δ) (rest : List (Server.Request δ))
    (h : hasKey "stop" r.args = true) :
    (Server.serverRun process m (r :: rest)).sent = [] ∧
    (Server.serverRun process m (r :: rest)).calls = [] ∧
    (Server.serverRun process m (r :: rest)).stopped = true := by
  simp [Server.serverRun, h]

/-- Witness for C10 at a request carrying `{"stop": false}`. -/
theorem run_stops_on_any_stop_key_witness :
    hasKey "stop" Server.c10req.args = true ∧
    ((Server.serverRun Server.constDictProcess Server.init_metrics
        [Server.c10req]).sent = [] ∧
     (Server.serverRun Server.constDictProcess Server.init_metrics
        [Server.c10req]).calls = [] ∧
     (Server.serverRun Server.constDictProcess Server.init_metrics
        [Server.c10req]).stopped = true) :=
  ⟨rfl, run_stops_on_any_stop_key Server.constDictProcess Server.init_metrics
    Server.c10req [] rfl⟩

/-- Counterexample to claim C8: the metrics snapshot delivered for the
first request after `init_metrics` reports `comp_time = 1` but
`overall_time` still at its initial 0.000001, because `comp_time` already
includes the current iteration while `overall_time` is only accumulated
after the send; its load fraction is 1,000,000, far outside [0, 1]. -/
theorem load_fraction_can_exceed_one :
    (Server.serverRun Server.constDictProcess Server.init_metrics [Server.c8req]).sent
      = [(0, Server.c8snap)] ∧
    1 < Server.loadOf Server.c8snap := by
  constructor
  · norm_num [Server.serverRun, Server.c8req, Server.init_metrics, hasKey,
      Server.constDictProcess, Server.c8snap]
    rw [if_neg (by decide)]
  · norm_num [Server.loadOf, Server.c8snap]

/-- Helper for the amended C8: the run loop keeps `overall_time` positive
and `comp_time` nonnegative, so every delivered snapshot has a
nonnegative load fraction. -/
theorem serverRun_snapshots_nonneg {δ α : Type} (process : δ → Args → Server.PResult α)
    (reqs : List (Server.Request δ)) (m : Server.Metrics)
    (hov : 0 < m.overall_time) (hcomp : 0 ≤ m.comp_time)
    (hreq : ∀ r ∈ reqs, 0 ≤ r.recvDur ∧ 0 ≤ r.compDur ∧ 0 ≤ r.sendDur ∧ 0 ≤ r.extraDur) :
    ∀ p ∈ (Server.serverRun process m reqs).sent,
      0 < p.2.overall_time ∧ 0 ≤ p.2.comp_time := by
  induction reqs generalizing m with
  | nil => intro p hp; simp [Server.serverRun] at hp
  | cons r rest ih =>
    intro p hp
    obtain ⟨hr1, hr2, hr3, hr4⟩ := hreq r (List.mem_cons_self r rest)
    have hreq' : ∀ q ∈ rest, 0 ≤ q.recvDur ∧ 0 ≤ q.compDur ∧ 0 ≤ q.sendDur ∧ 0 ≤ q.extraDur :=
      fun q hq => hreq q (List.mem_cons_of_mem r hq)
    by_cases hstop : hasKey "stop" r.args
    · simp [Server.serverRun, hstop] at hp
    · cases hout : process r.data r.args with
      | arr =>
        by_cases hreset : (1 : ℚ) < r.recvDur
        · simp only [Server.serverRun, hstop, hreset, if_true, if_false, hout,
            Bool.false_eq_true, List.nil_append] at hp
          refine ih _ ?_ ?_ hreq' p hp <;>
            dsimp only [Server.init_metrics] <;> linarith
        · simp only [Server.serverRun, hstop, hreset, if_true, if_false, hout,
            Bool.false_eq_true, List.nil_append] at hp
          refine ih _ ?_ ?_ hreq' p hp <;> dsimp only <;> linarith
      | dict d =>
        by_cases hreset : (1 : ℚ) < r.recvDur
        · simp only [Server.serverRun, hstop, hreset, if_true, if_false, hout,
            Bool.false_eq_true, List.singleton_append, List.mem_cons] at hp
          rcases hp with hp | hp
          · subst hp
            constructor
            · dsimp only [Server.init_metrics]; norm_num
            · dsimp only [Server.init_metrics]; linarith
          · refine ih _ ?_ ?_ hreq' p hp <;>
              dsimp only [Server.init_metrics] <;> linarith
        · simp only [Server.serverRun, hstop, hreset, if_true, if_false, hout,
            Bool.false_eq_true, List.singleton_append, List.mem_cons] at hp
          rcases hp with hp | hp
          · subst hp
            refine ⟨?_, ?_⟩ <;> dsimp only <;> linarith
          · refine ih _ ?_ ?_ hreq' p hp <;> dsimp only <;> linarith

/-- Claim C8, amended: the load fraction `comp_time / overall_time` of
every delivered metrics snapshot is nonnegative (given nonnegative
section durations), but it is not bounded by 1, since the snapshot's
`comp_time` already includes the current iteration while `overall_time`
(which additionally starts at 0.000001, not 0) does not. -/
theorem load_fraction_nonneg {δ α : Type} (process : δ → Args → Server.PResult α)
    (reqs : List (Server.Request δ))
    (hreq : ∀ r ∈ reqs, 0 ≤ r.recvDur ∧ 0 ≤ r.compDur ∧ 0 ≤ r.sendDur ∧ 0 ≤ r.extraDur) :
    ∀ p ∈ (Server.serverRun process Server.init_metrics reqs).sent,
      0 ≤ Server.loadOf p.2 := by
  intro p hp
  have h := serverRun_snapshots_nonneg process reqs Server.init_metrics
    (by norm_num [Server.init_metrics]) (by norm_num [Server.init_metrics]) hreq p hp
  exact div_nonneg h.2 (le_of_lt h.1)

/-- Witness for the amended C8 at a concrete request list. -/
theorem load_fraction_nonneg_witness :
    (∀ r ∈ [Server.c8req], 0 ≤ r.recvDur ∧ 0 ≤ r.compDur ∧ 0 ≤ r.sendDur ∧ 0 ≤ r.extraDur) ∧
    ∀ p ∈ (Server.serverRun (fun (_ : Unit) _ => Server.PResult.dict (0 : ℕ))
        Server.init_metrics [Server.c8req]).sent,
      0 ≤ Server.loadOf p.2 :=
  ⟨by decide,
   load_fraction_nonneg (fun (_ : Unit) _ => Server.PResult.dict (0 : ℕ))
     [Server.c8req] (by decide)⟩

/-- Row-major enumeration of multi-indices under C strides walks the
offsets 0, 1, ..., prod - 1 in order. -/
theorem multiIndices_offsets (shape : List ℕ) :
    (Conn.multiIndices shape).map (Conn.offsetOf (Conn.cStrides shape)) =
      (List.range shape.prod).map (fun k : ℕ => (k : ℤ)) := by
  induction shape with
  | nil =>
    simp only [Conn.multiIndices, Conn.offsetOf, Conn.cStrides, List.prod_nil]
    rfl
  | cons n rest ih =>
    have hrange : List.range (n * rest.prod) =
        (List.range n).flatMap
          (fun i => (List.range rest.prod).map (fun k => i * rest.prod + k)) := by
      induction n with
      | zero => simp
      | succ j ihj =>
        rw [Nat.succ_mul, List.range_add, ihj, List.range_succ, List.flatMap_append]
        simp
    rw [Conn.multiIndices, List.prod_cons, hrange, List.map_flatMap,
      List.map_flatMap]
    refine congrArg (List.flatMap (List.range n)) (funext fun i => ?_)
    rw [List.map_map, List.map_map]
    have h1 : (Conn.multiIndices rest).map
        (Conn.offsetOf (Conn.cStrides (n :: rest)) ∘ fun ix => i :: ix)
        = ((Conn.multiIndices rest).map (Conn.offsetOf (Conn.cStrides rest))).map
            (fun z => ((rest.prod : ℕ) : ℤ) * (i : ℤ) + z) := by
      rw [List.map_map]
      refine List.map_congr_left fun ix _ => ?_
      simp [Conn.offsetOf, Conn.cStrides, Function.comp]
    rw [h1, ih, List.map_map]
    refine List.map_congr_left fun k _ => ?_
    simp only [Function.comp_apply]
    push_cast
    ring

/-- There are exactly `shape.prod` multi-indices. -/
theorem multiIndices_length (shape : List ℕ) :
    (Conn.multiIndices shape).length = shape.prod := by
  have h := congrArg List.length (multiIndices_offsets shape)
  simpa using h

/-- Reading a list back at indices 0, ..., length - 1 returns the list. -/
theorem range_getD (l : List ℚ) :
    (List.range l.length).map (fun k => l.getD k 0) = l := by
  induction l with
  | nil => simp
  | cons x xs ih =>
    rw [List.length_cons, List.range_succ_eq_map, List.map_cons, List.map_map,
      List.getD_cons_zero]
    have htail : List.map ((fun k => (x :: xs).getD k 0) ∘ Nat.succ)
        (List.range xs.length) = xs := by
      rw [show ((fun k => (x :: xs).getD k 0) ∘ Nat.succ)
          = (fun k => xs.getD k 0) from rfl]
      exact ih
    rw [htail]

/-- Gathering a C-contiguous array whose buffer exactly covers its shape
returns the buffer itself. -/
theorem gather_contiguous (a : Conn.NDArray)
    (hs : a.strides = Conn.cStrides a.shape)
    (hl : a.buffer.length = a.shape.prod) :
    Conn.gather a = a.buffer := by
  unfold Conn.gather
  rw [hs]
  calc (Conn.multiIndices a.shape).map
        (fun ix => Conn.elemAt a.buffer (Conn.offsetOf (Conn.cStrides a.shape) ix))
      = ((Conn.multiIndices a.shape).map
          (Conn.offsetOf (Conn.cStrides a.shape))).map (Conn.elemAt a.buffer) := by
        rw [List.map_map]
        rfl
    _ = ((List.range a.shape.prod).map (fun k : ℕ => (k : ℤ))).map
          (Conn.elemAt a.buffer) := by rw [multiIndices_offsets]
    _ = (List.range a.shape.prod).map (fun k => a.buffer.getD k 0) := by
        rw [List.map_map]
        exact List.map_congr_left fun k _ => by simp [Conn.elemAt]
    _ = a.buffer := by rw [← hl, range_getD]

/-- Claim C1: for every array, contiguous or not, and every args value,
`send_array` on one `PairNode` followed by `recv_array` on the peer
returns the args and an array equal to the original in values, dtype and
shape.  The hypothesis states the numpy invariant that a contiguous
array's buffer exactly covers its shape. -/
theorem send_recv_array_roundtrip {π : Type} (args : π) (a : Conn.NDArray)
    (hwf : Conn.isCContiguous a = true → a.buffer.length = a.shape.prod) :
    ∃ b, Conn.recv_array (Conn.send_array args a) = some (args, b) ∧
      Conn.valuesEq a b := by
  by_cases hc : Conn.isCContiguous a = true
  · have hs : a.strides = Conn.cStrides a.shape := by
      have := hc
      unfold Conn.isCContiguous at this
      exact eq_of_beq this
    refine ⟨⟨a.dtype, a.shape, Conn.cStrides a.shape, a.buffer⟩, ?_, ?_, rfl, ?_⟩
    · unfold Conn.send_array Conn.recv_array
      rw [if_pos hc]
      simp [hwf hc]
    · rfl
    · unfold Conn.gather
      rw [hs]
  · have hlen : (Conn.gather a).length = a.shape.prod := by
      unfold Conn.gather
      rw [List.length_map, multiIndices_length]
    refine ⟨⟨a.dtype, a.shape, Conn.cStrides a.shape, Conn.gather a⟩, ?_, ?_, rfl, ?_⟩
    · unfold Conn.send_array Conn.recv_array Conn.ascontiguousarray
      rw [if_neg hc]
      simp [hlen]
    · rfl
    · exact (gather_contiguous ⟨a.dtype, a.shape, Conn.cStrides a.shape, Conn.gather a⟩
        rfl hlen).symm

/-- Witness for C1 at a concrete non-contiguous transposed array. -/
theorem send_recv_array_roundtrip_witness :
    (Conn.isCContiguous Conn.transposedArr = true →
      Conn.transposedArr.buffer.length = Conn.transposedArr.shape.prod) ∧
    ∃ b, Conn.recv_array (Conn.send_array (0 : ℕ) Conn.transposedArr)
        = some (0, b) ∧ Conn.valuesEq Conn.transposedArr b :=
  ⟨by decide, send_recv_array_roundtrip (0 : ℕ) Conn.transposedArr (by decide)⟩

/-- Claim C7 (code bug): `TrackProcessor.recv` is documented to be a
no-op returning `None` when no send is pending, but the code has no
`_send_flag` guard: on a state with `_send_flag = False` it still
performs the blocking `recv_dict`, consumes the message, post-processes
it and caches the metrics (`VideoProcessor.recv` does have the guard). -/
theorem trackprocessor_recv_ignores_pending_flag :
    Client.trackRecv Client.c7state =
      Client.RecvRes.got ⟨some [(1, [[(0, 0)]])]⟩
        { send_flag := false
          reset_flag := false
          tracks := [(1, [[(0, 0)]])]
          server_metrics := some Server.init_metrics
          incoming := [] } ∧
    ∀ st : Client.VPState, st.send_flag = false →
      Client.videoRecv st = Except.ok (Client.RecvRes.noop st) := by
  constructor
  · rfl
  · intro st h
    simp [Client.videoRecv, h]

/-- Counterexample to claim C9: `Detection.__init__` performs no
validation at all — it accepts a 3-by-3 points array — and the validation
that `Track.__init__` does perform accepts the rank-1 shape `(2,)`
(reshaping it to `(1, 2)`), which is not rank 2 with 2 columns. -/
theorem detection_points_validation_facts :
    Shape.mkRawDetection Shape.badPoints none
        = { points := Shape.badPoints, confidence := none } ∧
    Shape.validate_points_shape Shape.vecPoints = Except.ok ⟨[1, 2], [5, 7]⟩ ∧
    Shape.trackInitPointsCount (Shape.mkRawDetection Shape.vecPoints none)
        = Except.ok 1 := by
  refine ⟨rfl, rfl, rfl⟩

/-- Claim C9, amended: `Detection` construction never validates;
the validation run by `Track.__init__` accepts a points array exactly
when its shape is `[n, 2]` (kept as is) or `[2]` (reshaped to `[1, 2]`),
and rejects every other shape with an error. -/
theorem validate_points_shape_characterization (a : Shape.PointsArray) :
    ((∃ b, Shape.validate_points_shape a = Except.ok b) ↔
      (a.shape = [2] ∨ ∃ n, a.shape = [n, 2])) ∧
    ∀ c, Shape.mkRawDetection a c = { points := a, confidence := c } := by
  obtain ⟨shape, flat⟩ := a
  refine ⟨?_, fun c => rfl⟩
  match shape with
  | [] => simp [Shape.validate_points_shape]
  | [x] =>
    by_cases hx : x = 2
    · subst hx
      simp [Shape.validate_points_shape]
    · simp [Shape.validate_points_shape, hx]
  | x :: y :: rest =>
    by_cases hy : y = 2
    · subst hy
      cases rest with
      | nil => simp [Shape.validate_points_shape]
      | cons z zs =>
        simp only [Shape.validate_points_shape]
        constructor
        · rintro ⟨b, hb⟩
          rw [if_neg (by simp), List.get?] at hb
          simp only [List.get?] at hb
          rw [if_pos (by right; simp only [List.length_cons]; omega)] at hb
          cases hb
        · rintro (h | ⟨n, h⟩) <;> simp_all
    · simp only [Shape.validate_points_shape]
      constructor
      · rintro ⟨b, hb⟩
        rw [if_neg (by simp [hy]), List.get?] at hb
        simp only [List.get?] at hb
        rw [if_pos (Or.inl (by simpa using hy))] at hb
        cases hb
      · rintro (h | ⟨n, h⟩) <;> simp_all

/-- Counterexample to claim C2: the cap in `Track.add` is a pre-check
(`if detection_count < max_drop_life: detection_count += 2`), not a
clamp, so a track at `max_drop_life - 1` overshoots.  Starting from a
fresh track (`detection_count = 11`, `max_drop_life = 25`), 15 matched
cycles of `tracker_step` followed by `add` leave `detection_count = 26`,
exceeding `max_drop_life`. -/
theorem detection_count_cap_exceeded :
    (Tracking.iterN Tracking.stepAdd 15 Tracking.t0).detection_count = 26 ∧
    (Tracking.iterN Tracking.stepAdd 15 Tracking.t0).max_drop_life = 25 ∧
    (Tracking.iterN Tracking.stepAdd 15 Tracking.t0).max_drop_life
      < (Tracking.iterN Tracking.stepAdd 15 Tracking.t0).detection_count :=
  ⟨by decide, by decide, by decide⟩

/-- Claim C2, amended: `tracker_step` decreases `detection_count` by
exactly 1; a successful `add` increases it by exactly 2 when it is
strictly below `max_drop_life` and leaves it unchanged otherwise — so the
count can reach `max_drop_life + 1` but never more; and a track with
momentum (not yet prunable) never goes negative under a step when
`min_drop_life ≥ 1`. -/
theorem detection_count_dynamics {φ : Type} (kf : Tracking.KF φ)
    (t : Tracking.Track φ) (d : Tracking.Detection)
    (hmin : 1 ≤ t.min_drop_life)
    (hcap : t.detection_count ≤ t.max_drop_life + 1) :
    (Tracking.tracker_step kf t).detection_count = t.detection_count - 1 ∧
    (Tracking.Track.add kf t d).detection_count =
      (if t.detection_count < t.max_drop_life then t.detection_count + 2
       else t.detection_count) ∧
    (Tracking.Track.add kf t d).detection_count ≤ t.max_drop_life + 1 ∧
    (t.min_drop_life ≤ t.detection_count →
      0 ≤ (Tracking.tracker_step kf t).detection_count) := by
  have hadd : (Tracking.Track.add kf t d).detection_count =
      (if t.detection_count < t.max_drop_life then t.detection_count + 2
       else t.detection_count) := by
    by_cases h : t.detection_count < t.max_drop_life <;>
      simp [Tracking.Track.add, h]
  refine ⟨rfl, hadd, ?_, fun h => ?_⟩
  · rw [hadd]
    split <;> omega
  · show 0 ≤ t.detection_count - 1
    omega

/-- Witness for the amended C2 at a fresh track. -/
theorem detection_count_dynamics_witness :
    (1 ≤ Tracking.t0.min_drop_life ∧
      Tracking.t0.detection_count ≤ Tracking.t0.max_drop_life + 1) ∧
    ((Tracking.tracker_step Tracking.kfUnit Tracking.t0).detection_count
        = Tracking.t0.detection_count - 1 ∧
     (Tracking.Track.add Tracking.kfUnit Tracking.t0 Tracking.det00).detection_count =
       (if Tracking.t0.detection_count < Tracking.t0.max_drop_life then
          Tracking.t0.detection_count + 2
        else Tracking.t0.detection_count) ∧
     (Tracking.Track.add Tracking.kfUnit Tracking.t0 Tracking.det00).detection_count
        ≤ Tracking.t0.max_drop_life + 1 ∧
     (Tracking.t0.min_drop_life ≤ Tracking.t0.detection_count →
       0 ≤ (Tracking.tracker_step Tracking.kfUnit Tracking.t0).detection_count)) :=
  ⟨⟨by decide, by decide⟩,
   detection_count_dynamics Tracking.kfUnit Tracking.t0 Tracking.det00
     (by decide) (by decide)⟩

/-- The argmin fold either keeps its accumulator or lands on a list
element, whose index it reports relative to the start offset. -/
theorem argminAux_spec (xs : List ℚ) : ∀ (k0 : ℕ) (best : ℕ × ℚ),
    Tracking.argminAux k0 best xs = best ∨
    ∃ j, j < xs.length ∧ (Tracking.argminAux k0 best xs).1 = k0 + j ∧
      (Tracking.argminAux k0 best xs).2 = xs.getD j 0 := by
  induction xs with
  | nil => intro k0 best; left; rfl
  | cons x xs ih =>
    intro k0 best
    by_cases hx : x < best.2
    · rcases ih (k0 + 1) (k0, x) with h | ⟨j, hj, h1, h2⟩
      · right
        refine ⟨0, by simp, ?_, ?_⟩
        · simp [Tracking.argminAux, if_pos hx, h]
        · simp [Tracking.argminAux, if_pos hx, h, List.getD_cons_zero]
      · right
        refine ⟨j + 1, by simp only [List.length_cons]; omega, ?_, ?_⟩
        · simp only [Tracking.argminAux, if_pos hx, h1]
          omega
        · simp only [Tracking.argminAux, if_pos hx, h2, List.getD_cons_succ]
    · rcases ih (k0 + 1) best with h | ⟨j, hj, h1, h2⟩
      · left
        simp only [Tracking.argminAux, if_neg hx, h]
      · right
        refine ⟨j + 1, by simp only [List.length_cons]; omega, ?_, ?_⟩
        · simp only [Tracking.argminAux, if_neg hx, h1]
          omega
        · simp only [Tracking.argminAux, if_neg hx, h2, List.getD_cons_succ]

/-- The flat argmin returns an in-range index and the value stored
there. -/
theorem argminFlat_spec (l : List ℚ) (k : ℕ) (v : ℚ)
    (h : Tracking.argminFlat l = some (k, v)) :
    k < l.length ∧ l.getD k 0 = v := by
  match l with
  | [] => cases h
  | x :: xs =>
    have hx : Tracking.argminAux 1 (0, x) xs = (k, v) := by
      have := h
      simp only [Tracking.argminFlat, Option.some.injEq] at this
      exact this
    rcases argminAux_spec xs 1 (0, x) with heq | ⟨j, hj, h1, h2⟩
    · rw [hx] at heq
      cases heq
      exact ⟨Nat.succ_pos _, rfl⟩
    · rw [hx] at h1 h2
      dsimp at h1 h2
      subst h1
      refine ⟨by simp only [List.length_cons]; omega, ?_⟩
      rw [show 1 + j = j + 1 from Nat.add_comm 1 j, List.getD_cons_succ, h2]

/-- Invalidation does not change the matrix size. -/
theorem sentinelize_length (s : ℚ) (m d t : ℕ) (l : List ℚ) :
    ∀ k0, (Tracking.sentinelize s m d t k0 l).length = l.length := by
  induction l with
  | nil => intro k0; rfl
  | cons x xs ih =>
    intro k0
    simp only [Tracking.sentinelize, List.length_cons, ih (k0 + 1)]

/-- Entry-wise description of invalidation: sentinel on the invalidated
row and column, the previous entry elsewhere. -/
theorem sentinelize_getD (s : ℚ) (m d t : ℕ) (l : List ℚ) :
    ∀ (k0 j : ℕ), j < l.length →
      (Tracking.sentinelize s m d t k0 l).getD j 0 =
        if (k0 + j) / m = d ∨ (k0 + j) % m = t then s else l.getD j 0 := by
  induction l with
  | nil => intro k0 j hj; cases hj
  | cons x xs ih =>
    intro k0 j hj
    cases j with
    | zero =>
      simp only [Tracking.sentinelize, List.getD_cons_zero, Nat.add_zero]
    | succ j =>
      simp only [Tracking.sentinelize, List.getD_cons_succ]
      rw [ih (k0 + 1) j (by simpa using Nat.lt_of_succ_lt_succ hj)]
      have harith : k0 + 1 + j = k0 + (j + 1) := by omega
      rw [harith]

/-- Every pair the greedy loop accepts names an in-range matrix entry
whose value (in the matrix the loop started from) is strictly below the
threshold. -/
theorem matchLoop_mem (thr : ℚ) (m : ℕ) (hm : 0 < m) :
    ∀ (fuel : ℕ) (flat : List ℚ) (p : ℕ × ℕ),
      p ∈ Tracking.matchLoop thr m fuel flat →
      p.2 < m ∧ p.1 * m + p.2 < flat.length ∧ flat.getD (p.1 * m + p.2) 0 < thr := by
  intro fuel
  induction fuel with
  | zero => intro flat p hp; cases hp
  | succ fuel ih =>
    intro flat p hp
    rw [Tracking.matchLoop] at hp
    cases ha : Tracking.argminFlat flat with
    | none => rw [ha] at hp; cases hp
    | some kv =>
      obtain ⟨k, v⟩ := kv
      simp only [ha] at hp
      by_cases hv : v < thr
      · rw [if_pos hv] at hp
        obtain ⟨hk, hgd⟩ := argminFlat_spec flat k v ha
        have hdm : k / m * m + k % m = k := by
          rw [Nat.mul_comm]
          exact Nat.div_add_mod k m
        rcases List.mem_cons.mp hp with hph | hpt
        · subst hph
          refine ⟨Nat.mod_lt _ hm, ?_, ?_⟩
          · simpa [hdm] using hk
          · rw [show k / m * m + k % m = k from hdm, hgd]
            exact hv
        · obtain ⟨h2, hlen, hval⟩ := ih _ p hpt
          rw [sentinelize_length] at hlen
          refine ⟨h2, hlen, ?_⟩
          have hsg := sentinelize_getD (thr + 1) m (k / m) (k % m) flat 0
            (p.1 * m + p.2) hlen
          rw [Nat.zero_add] at hsg
          rw [hsg] at hval
          by_cases hcond : (p.1 * m + p.2) / m = k / m ∨ (p.1 * m + p.2) % m = k % m
          · rw [if_pos hcond] at hval
            linarith
          · rw [if_neg hcond] at hval
            exact hval
      · rw [if_neg hv] at hp
        cases hp

/-- Greedy acceptance invalidates the row and column, so no detection
index and no track index repeats among the accepted pairs. -/
theorem matchLoop_pairwise (thr : ℚ) (m : ℕ) (hm : 0 < m) :
    ∀ (fuel : ℕ) (flat : List ℚ),
      (Tracking.matchLoop thr m fuel flat).Pairwise
        (fun p q => p.1 ≠ q.1 ∧ p.2 ≠ q.2) := by
  intro fuel
  induction fuel with
  | zero => intro flat; exact List.Pairwise.nil
  | succ fuel ih =>
    intro flat
    rw [Tracking.matchLoop]
    cases ha : Tracking.argminFlat flat with
    | none => exact List.Pairwise.nil
    | some kv =>
      obtain ⟨k, v⟩ := kv
      dsimp only
      by_cases hv : v < thr
      · rw [if_pos hv]
        refine List.pairwise_cons.mpr ⟨?_, ih _⟩
        intro q hq
        obtain ⟨h2, hlen, hval⟩ := matchLoop_mem thr m hm fuel _ q hq
        have hdiv : (q.1 * m + q.2) / m = q.1 := by
          rw [Nat.mul_comm, Nat.mul_add_div hm, Nat.div_eq_of_lt h2, Nat.add_zero]
        have hmod : (q.1 * m + q.2) % m = q.2 := by
          rw [Nat.mul_comm, Nat.mul_add_mod, Nat.mod_eq_of_lt h2]
        have hsg := sentinelize_getD (thr + 1) m (k / m) (k % m) flat 0
          (q.1 * m + q.2)
          (by rw [← sentinelize_length (thr + 1) m (k / m) (k % m) flat 0]; exact hlen)
        rw [Nat.zero_add] at hsg
        dsimp only
        constructor
        · intro hq1
          rw [hsg, if_pos (Or.inl (by rw [hdiv, hq1]))] at hval
          linarith
        · intro hq2
          rw [hsg, if_pos (Or.inr (by rw [hmod, hq2]))] at hval
          linarith
      · rw [if_neg hv]
        exact List.Pairwise.nil

/-- Unfolding countBelow over a cons cell. -/
theorem countBelow_cons (thr x : ℚ) (xs : List ℚ) :
    Tracking.countBelow thr (x :: xs) =
      (if x < thr then 1 else 0) + Tracking.countBelow thr xs := by
  simp only [Tracking.countBelow]
  rw [List.filter_cons]
  by_cases h : x < thr
  · rw [if_pos (by simpa using h), List.length_cons, if_pos h]
    omega
  · rw [if_neg (by simpa using h), if_neg h, Nat.zero_add]

/-- Invalidation never adds entries below the threshold. -/
theorem countBelow_sentinelize_le (thr s : ℚ) (hs : ¬s < thr) (m d t : ℕ)
    (l : List ℚ) : ∀ k0,
    Tracking.countBelow thr (Tracking.sentinelize s m d t k0 l) ≤
      Tracking.countBelow thr l := by
  induction l with
  | nil => intro k0; exact Nat.le_refl _
  | cons x xs ih =>
    intro k0
    simp only [Tracking.sentinelize]
    rw [countBelow_cons, countBelow_cons]
    have := ih (k0 + 1)
    by_cases hc : k0 / m = d ∨ k0 % m = t
    · rw [if_pos hc, if_neg hs]
      split <;> omega
    · rw [if_neg hc]
      omega

/-- Invalidating a position that currently holds an entry strictly below
the threshold strictly decreases the count of such entries. -/
theorem countBelow_sentinelize_lt (thr s : ℚ) (hs : ¬s < thr) (m d t : ℕ)
    (l : List ℚ) : ∀ k0 j, j < l.length →
    ((k0 + j) / m = d ∨ (k0 + j) % m = t) → l.getD j 0 < thr →
    Tracking.countBelow thr (Tracking.sentinelize s m d t k0 l) <
      Tracking.countBelow thr l := by
  induction l with
  | nil => intro k0 j hj; cases hj
  | cons x xs ih =>
    intro k0 j hj hcond hx
    simp only [Tracking.sentinelize]
    rw [countBelow_cons, countBelow_cons]
    cases j with
    | zero =>
      rw [Nat.add_zero] at hcond
      rw [List.getD_cons_zero] at hx
      rw [if_pos hcond, if_neg hs, if_pos hx]
      have := countBelow_sentinelize_le thr s hs m d t xs (k0 + 1)
      omega
    | succ j =>
      rw [List.getD_cons_succ] at hx
      have hcond' : (k0 + 1 + j) / m = d ∨ (k0 + 1 + j) % m = t := by
        have harith : k0 + 1 + j = k0 + (j + 1) := by omega
        rw [harith]
        exact hcond
      have := ih (k0 + 1) j (by simp only [List.length_cons] at hj; omega) hcond' hx
      by_cases hc : k0 / m = d ∨ k0 % m = t
      · rw [if_pos hc, if_neg hs]
        split <;> omega
      · rw [if_neg hc]
        omega

/-- A matrix whose argmin value is strictly below the threshold has at
least one entry below the threshold. -/
theorem countBelow_pos_of_argmin (thr : ℚ) (flat : List ℚ) (k : ℕ) (v : ℚ)
    (ha : Tracking.argminFlat flat = some (k, v)) (hv : v < thr) :
    0 < Tracking.countBelow thr flat := by
  obtain ⟨hk, hgd⟩ := argminFlat_spec flat k v ha
  have hmem : flat.getD k 0 ∈ flat := by
    rw [List.getD_eq_getElem flat 0 hk]
    exact List.getElem_mem hk
  have : flat.getD k 0 ∈ flat.filter (fun x => decide (x < thr)) :=
    List.mem_filter.mpr ⟨hmem, by rw [hgd]; exact decide_eq_true hv⟩
  have hne : flat.filter (fun x => decide (x < thr)) ≠ [] := by
    intro hnil
    rw [hnil] at this
    cases this
  exact List.length_pos.mpr hne

/-- Fuel sufficiency: with at least `countBelow` fuel, the greedy loop
always exits through its own condition, so `Tracker.match`'s fuel bound
reproduces the unbounded Python `while` loop. -/
theorem matchLoop_fuel_stable (thr : ℚ) (m : ℕ) :
    ∀ (fuel : ℕ) (flat : List ℚ), Tracking.countBelow thr flat ≤ fuel →
      Tracking.matchLoop thr m (fuel + 1) flat =
        Tracking.matchLoop thr m fuel flat := by
  intro fuel
  induction fuel with
  | zero =>
    intro flat hcb
    rw [Tracking.matchLoop, Tracking.matchLoop]
    cases ha : Tracking.argminFlat flat with
    | none => rfl
    | some kv =>
      obtain ⟨k, v⟩ := kv
      dsimp only
      by_cases hv : v < thr
      · exact absurd (countBelow_pos_of_argmin thr flat k v ha hv) (by omega)
      · rw [if_neg hv]
  | succ fuel ih =>
    intro flat hcb
    rw [Tracking.matchLoop]
    conv_rhs => rw [Tracking.matchLoop]
    cases ha : Tracking.argminFlat flat with
    | none => rfl
    | some kv =>
      obtain ⟨k, v⟩ := kv
      dsimp only
      by_cases hv : v < thr
      · rw [if_pos hv, if_pos hv]
        congr 1
        refine ih _ ?_
        obtain ⟨hk, hgd⟩ := argminFlat_spec flat k v ha
        have hlt := countBelow_sentinelize_lt thr (thr + 1) (by linarith) m
          (k / m) (k % m) flat 0 k hk (Or.inl (by rw [Nat.zero_add]))
          (by rw [hgd]; exact hv)
        omega
      · rw [if_neg hv, if_neg hv]

/-- Claim C4: within a single `update_tracks` call, the greedy matching
over the clipped distance matrix accepts pairwise-distinct detection and
track indices, and every accepted (detection, track) pair has true
distance strictly below `distance_threshold`. -/
theorem match_pairs_distinct_and_below_threshold
    (thr : ℚ) (D : ℕ → ℕ → ℚ) (nd m : ℕ) :
    (Tracking.Tracker.match thr m (Tracking.buildFlat thr D nd m)).Pairwise
      (fun p q => p.1 ≠ q.1 ∧ p.2 ≠ q.2) ∧
    ∀ p ∈ Tracking.Tracker.match thr m (Tracking.buildFlat thr D nd m),
      p.1 < nd ∧ p.2 < m ∧ D p.1 p.2 < thr := by
  unfold Tracking.Tracker.match
  have hblen : (Tracking.buildFlat thr D nd m).length = nd * m := by
    simp [Tracking.buildFlat]
  by_cases hpos : 0 < (Tracking.buildFlat thr D nd m).length
  · rw [if_pos hpos]
    have hm : 0 < m := by
      rcases Nat.eq_zero_or_pos m with hm0 | hm0
      · rw [hblen, hm0, Nat.mul_zero] at hpos
        cases hpos
      · exact hm0
    refine ⟨matchLoop_pairwise thr m hm _ _, ?_⟩
    intro p hp
    obtain ⟨h2, hlen, hval⟩ := matchLoop_mem thr m hm _ _ p hp
    rw [hblen] at hlen
    have h1 : p.1 < nd := by
      rcases Nat.lt_or_ge p.1 nd with h | h
      · exact h
      · exact absurd hlen (by
          have : nd * m ≤ p.1 * m := Nat.mul_le_mul_right m h
          omega)
    refine ⟨h1, h2, ?_⟩
    have hgd : (Tracking.buildFlat thr D nd m).getD (p.1 * m + p.2) 0 =
        Tracking.clipDistance thr (D ((p.1 * m + p.2) / m) ((p.1 * m + p.2) % m)) := by
      unfold Tracking.buildFlat
      rw [List.getD_eq_getElem?_getD, List.getElem?_map,
        List.getElem?_range hlen]
      rfl
    rw [hgd] at hval
    have hdiv : (p.1 * m + p.2) / m = p.1 := by
      rw [Nat.mul_comm, Nat.mul_add_div hm, Nat.div_eq_of_lt h2, Nat.add_zero]
    have hmod : (p.1 * m + p.2) % m = p.2 := by
      rw [Nat.mul_comm, Nat.mul_add_mod, Nat.mod_eq_of_lt h2]
    rw [hdiv, hmod] at hval
    unfold Tracking.clipDistance at hval
    by_cases hclip : thr < D p.1 p.2
    · rw [if_pos hclip] at hval
      linarith
    · rw [if_neg hclip] at hval
      exact hval
  · rw [if_neg hpos]
    exact ⟨List.Pairwise.nil, fun p hp => absurd hp (List.not_mem_nil p)⟩

/-- The property values returned by a sweep of lazy `initializing` reads
are the post-read flags of the updated tracks. -/
theorem readInitAll_flags {φ : Type} (ts : List (Tracking.Track φ)) : ∀ cnt,
    (Tracking.readInitAll cnt ts).2.2 =
      (Tracking.readInitAll cnt ts).1.map (fun o => o.initializing_flag) := by
  induction ts with
  | nil => intro cnt; rfl
  | cons t ts ih =>
    intro cnt
    simp only [Tracking.readInitAll, List.map_cons]
    congr 1
    · by_cases hc : t.initializing_flag ∧
          ((t.min_drop_life + t.max_drop_life : ℚ) / 2 < (t.detection_count : ℚ))
      · simp only [Tracking.initializingRead, if_pos hc]
      · simp only [Tracking.initializingRead, if_neg hc]
    · exact ih _


/-- Selecting by the mask of a predicate is filtering by it. -/
theorem maskSelect_map_filter {α : Type} (p : α → Bool) (l : List α) :
    Tracking.maskSelect (l.map p) l = l.filter p := by
  induction l with
  | nil => rfl
  | cons x xs ih =>
    simp only [List.map_cons, Tracking.maskSelect, List.filter_cons]
    by_cases h : p x
    · rw [if_pos h, if_pos h, ih]
    · rw [if_neg h, if_neg h, ih]

/-- Claim C5: `Tracker.update` performs, in order, exactly the spec's
update cycle — prune tracks with `detection_count < min_drop_life`,
predict-step every survivor, match detections against the
non-initializing tracks first and the remaining detections against the
initializing tracks, spawn a new initializing track per detection still
unmatched, and return exactly the live tracks that are no longer
initializing. -/
theorem update_follows_spec_pipeline {φ : Type} (kf : Tracking.KF φ)
    (dist : Tracking.Detection → Tracking.Track φ → ℚ)
    (st : Tracking.TrackerState φ) (dets : Option (List Tracking.Detection)) :
    Tracking.Tracker.update kf dist st dets = Tracking.updateSpec kf dist st dets := by
  have hpr : st.tracked_objects.filter
        (fun o => !(decide (o.detection_count < o.min_drop_life)))
      = st.tracked_objects.filter Tracking.hasMomentum := by
    refine List.filter_congr fun o _ => ?_
    by_cases hlt : o.detection_count < o.min_drop_life
    · simp [Tracking.hasMomentum, hlt, not_le.mpr hlt]
    · simp [Tracking.hasMomentum, hlt, not_lt.mp hlt]
  have hstep : Tracking.predictSpec kf = @Tracking.tracker_step φ kf := rfl
  have hnotc : ((fun b => !b) ∘ fun o : Tracking.Track φ => o.initializing_flag)
      = fun o : Tracking.Track φ => !o.initializing_flag := rfl
  simp only [Tracking.Tracker.update, Tracking.updateSpec, Tracking.pruneSpec,
    hpr, hstep]
  simp only [readInitAll_flags, List.map_map, hnotc, maskSelect_map_filter]

/-- `idEq` is reflexive. -/
theorem idEq_refl {φ : Type} (a : Tracking.Track φ) : Tracking.idEq a a :=
  ⟨rfl, rfl⟩

/-- `idEq` is transitive. -/
theorem idEq_trans {φ : Type} {a b c : Tracking.Track φ}
    (h1 : Tracking.idEq a b) (h2 : Tracking.idEq b c) : Tracking.idEq a c :=
  ⟨h2.1.trans h1.1, h2.2.trans h1.2⟩

/-- Pointwise `idEq` of a list with itself. -/
theorem forall2_idEq_refl {φ : Type} (l : List (Tracking.Track φ)) :
    List.Forall₂ Tracking.idEq l l :=
  List.forall₂_same.mpr fun x _ => idEq_refl x

/-- Pointwise `idEq` composes. -/
theorem forall2_idEq_trans {φ : Type} {l1 l2 l3 : List (Tracking.Track φ)}
    (h1 : List.Forall₂ Tracking.idEq l1 l2)
    (h2 : List.Forall₂ Tracking.idEq l2 l3) :
    List.Forall₂ Tracking.idEq l1 l3 := by
  induction h1 generalizing l3 with
  | nil => cases h2; exact List.Forall₂.nil
  | cons hab hrest ih =>
    cases h2 with
    | cons hbc hrest2 => exact List.Forall₂.cons (idEq_trans hab hbc) (ih hrest2)

/-- Mapping an id- and flag-preserving function is pointwise `idEq`. -/
theorem forall2_idEq_map {φ : Type} (f : Tracking.Track φ → Tracking.Track φ)
    (hf : ∀ x, Tracking.idEq x (f x)) (l : List (Tracking.Track φ)) :
    List.Forall₂ Tracking.idEq l (l.map f) := by
  induction l with
  | nil => exact List.Forall₂.nil
  | cons x xs ih => exact List.Forall₂.cons (hf x) ih

/-- `tracker_step` keeps a track's id and initializing flag. -/
theorem tracker_step_idEq {φ : Type} (kf : Tracking.KF φ) (t : Tracking.Track φ) :
    Tracking.idEq t (Tracking.tracker_step kf t) :=
  ⟨rfl, rfl⟩

/-- `Track.add` keeps a track's id and initializing flag. -/
theorem add_idEq {φ : Type} (kf : Tracking.KF φ) (t : Tracking.Track φ)
    (d : Tracking.Detection) : Tracking.idEq t (Tracking.Track.add kf t d) := by
  by_cases h : t.detection_count < t.max_drop_life <;>
    exact ⟨by simp [Tracking.Track.add, h], by simp [Tracking.Track.add, h]⟩

/-- Modifying one position with an id- and flag-preserving function is
pointwise `idEq`. -/
theorem forall2_idEq_modifyAt {φ : Type} (g : Tracking.Track φ → Tracking.Track φ)
    (hg : ∀ x, Tracking.idEq x (g x)) (l : List (Tracking.Track φ)) : ∀ i,
    List.Forall₂ Tracking.idEq l (Tracking.modifyAt i g l) := by
  induction l with
  | nil =>
    intro i
    simp only [Tracking.modifyAt]
    exact List.Forall₂.nil
  | cons x xs ih =>
    intro i
    cases i with
    | zero => exact List.Forall₂.cons (hg x) (forall2_idEq_refl xs)
    | succ j => exact List.Forall₂.cons (idEq_refl x) (ih j)

/-- Folding a step that keeps the track list pointwise `idEq` keeps the
whole fold pointwise `idEq`. -/
theorem foldl_fst_idEq {φ β : Type}
    (f : (List (Tracking.Track φ) × β) → (ℕ × ℕ) → (List (Tracking.Track φ) × β))
    (hf : ∀ acc pr, List.Forall₂ Tracking.idEq acc.1 (f acc pr).1)
    (tracks0 : List (Tracking.Track φ)) :
    ∀ (pairs : List (ℕ × ℕ)) (base : List (Tracking.Track φ) × β),
      List.Forall₂ Tracking.idEq tracks0 base.1 →
      List.Forall₂ Tracking.idEq tracks0 (pairs.foldl f base).1 := by
  intro pairs
  induction pairs with
  | nil => intro base hb; exact hb
  | cons pr pairs ih =>
    intro base hb
    exact ih (f base pr) (forall2_idEq_trans hb (hf base pr))

/-- `update_tracks` returns tracks pointwise `idEq` to its input: matching
only calls `add`, records distances and refreshes `current_min_distance`,
none of which touches ids or initializing flags. -/
theorem update_tracks_idEq {φ : Type} (dist : Tracking.Detection → Tracking.Track φ → ℚ)
    (thr : ℚ) (kf : Tracking.KF φ) (tracks : List (Tracking.Track φ))
    (dets : Option (List Tracking.Detection)) :
    List.Forall₂ Tracking.idEq tracks
      (Tracking.update_tracks dist thr kf tracks dets).1 := by
  cases dets with
  | none => exact forall2_idEq_refl tracks
  | some ds =>
    by_cases hlen : ds.length = 0
    · simp only [Tracking.update_tracks, if_pos hlen]
      exact forall2_idEq_refl tracks
    · simp only [Tracking.update_tracks, if_neg hlen]
      split
      · refine foldl_fst_idEq _ ?_ tracks _ _ ?_
        · intro acc pr
          dsimp only
          split
          · refine forall2_idEq_modifyAt _ (fun x => ?_) acc.1 pr.2
            exact ⟨(add_idEq kf x _).1, (add_idEq kf x _).2⟩
          · exact forall2_idEq_refl acc.1
        · dsimp only
          split
          · refine forall2_idEq_map _ (fun x => ?_) tracks
            exact ⟨rfl, rfl⟩
          · exact forall2_idEq_refl tracks
      · dsimp only
        split
        · refine forall2_idEq_map _ (fun x => ?_) tracks
          exact ⟨rfl, rfl⟩
        · exact forall2_idEq_refl tracks

/-- Scattering a pointwise `idEq` update of a masked sublist back into the
full list keeps the full list pointwise `idEq`. -/
theorem forall2_idEq_scatter {φ : Type} :
    ∀ (mask : List Bool) (l sub2 : List (Tracking.Track φ)),
    List.Forall₂ Tracking.idEq (Tracking.maskSelect mask l) sub2 →
    List.Forall₂ Tracking.idEq l (Tracking.scatterMask mask l sub2) := by
  intro mask
  induction mask with
  | nil =>
    intro l sub2 _
    simp only [Tracking.scatterMask]
    exact forall2_idEq_refl l
  | cons b bs ih =>
    intro l sub2 h
    cases l with
    | nil =>
      simp only [Tracking.scatterMask]
      exact List.Forall₂.nil
    | cons x xs =>
      simp only [Tracking.scatterMask]
      by_cases hb : b = true
      · subst hb
        simp only [Tracking.maskSelect, if_pos rfl] at h
        rw [if_pos rfl]
        cases h with
        | cons hxy hrest =>
          exact List.Forall₂.cons hxy (ih xs _ hrest)
      · have hb' : b = false := by revert hb; cases b <;> simp
        subst hb'
        simp only [Tracking.maskSelect, Bool.false_eq_true, if_false] at h
        rw [if_neg (by simp)]
        exact List.Forall₂.cons (idEq_refl x) (ih xs sub2 h)

/-- Pointwise `idEq` lists carry the same assigned ids. -/
theorem assignedIds_of_forall2 {φ : Type} {l l2 : List (Tracking.Track φ)}
    (h : List.Forall₂ Tracking.idEq l l2) :
    Tracking.assignedIds l2 = Tracking.assignedIds l := by
  induction h with
  | nil => rfl
  | cons hab hrest ih =>
    simp only [Tracking.assignedIds, List.filterMap_cons] at ih ⊢
    rw [hab.1, ih]

/-- Id well-formedness transfers along pointwise `idEq`. -/
theorem trackIdOK_of_forall2 {φ : Type} {cnt : ℕ} {l l2 : List (Tracking.Track φ)}
    (h : List.Forall₂ Tracking.idEq l l2)
    (hok : ∀ t ∈ l, Tracking.trackIdOK cnt t) :
    ∀ t ∈ l2, Tracking.trackIdOK cnt t := by
  induction h with
  | nil => exact hok
  | cons hab hrest ih =>
    intro t ht
    rcases List.mem_cons.mp ht with rfl | ht
    · have := hok _ (List.mem_cons_self _ _)
      unfold Tracking.trackIdOK at this ⊢
      rw [hab.1, hab.2]
      exact this
    · exact ih (fun t' ht' => hok t' (List.mem_cons_of_mem _ ht')) t ht

/-- Id well-formedness is monotone in the counter. -/
theorem trackIdOK_mono {φ : Type} {cnt cnt2 : ℕ} (h : cnt ≤ cnt2)
    {t : Tracking.Track φ} (hok : Tracking.trackIdOK cnt t) :
    Tracking.trackIdOK cnt2 t := by
  refine ⟨hok.1, fun hf => ?_⟩
  obtain ⟨i, hi, h1, h2⟩ := hok.2 hf
  exact ⟨i, hi, h1, le_trans h2 h⟩

/-- A well-formed assigned id lies between 1 and the counter. -/
theorem trackIdOK_id_le {φ : Type} {cnt : ℕ} {t : Tracking.Track φ} {i : ℕ}
    (h : Tracking.trackIdOK cnt t) (hid : t.id = some i) : 1 ≤ i ∧ i ≤ cnt := by
  cases hbf : t.initializing_flag with
  | true =>
    rw [h.1 hbf] at hid
    cases hid
  | false =>
    obtain ⟨j, hj, h1, h2⟩ := h.2 hbf
    rw [hj] at hid
    cases hid
    exact ⟨h1, h2⟩

/-- Unfolding `assignedIds` over a cons cell. -/
theorem assignedIds_cons {φ : Type} (t : Tracking.Track φ)
    (ts : List (Tracking.Track φ)) :
    Tracking.assignedIds (t :: ts) =
      (match t.id with
       | none => Tracking.assignedIds ts
       | some i => i :: Tracking.assignedIds ts) := by
  simp only [Tracking.assignedIds, List.filterMap_cons]
  cases t.id <;> rfl

/-- Freshly spawned tracks carry no ids. -/
theorem assignedIds_spawn {φ : Type} (kf : Tracking.KF φ) (minL maxL : ℤ)
    (cthr : ℚ) (ds : List Tracking.Detection) :
    Tracking.assignedIds (ds.map (fun d => Tracking.mkTrack kf d minL maxL cthr)) = [] := by
  induction ds with
  | nil => rfl
  | cons d ds ih =>
    simp only [List.map_cons, Tracking.assignedIds, List.filterMap_cons] at ih ⊢
    rw [show (Tracking.mkTrack kf d minL maxL cthr).id = none from rfl]
    exact ih

/-- Every assigned id of a well-formed track list lies between 1 and the
counter. -/
theorem assignedIds_le {φ : Type} {cnt : ℕ} {ts : List (Tracking.Track φ)}
    (hok : ∀ t ∈ ts, Tracking.trackIdOK cnt t) :
    ∀ i ∈ Tracking.assignedIds ts, 1 ≤ i ∧ i ≤ cnt := by
  intro i hi
  obtain ⟨t, ht, hid⟩ := List.mem_filterMap.mp hi
  exact trackIdOK_id_le (hok t ht) hid

/-- Master lemma for a sweep of lazy `initializing` reads: the counter
never decreases, id well-formedness and distinctness are preserved, and
every id after the sweep is either an old id or a fresh one strictly above
the old counter and at most the new counter. -/
theorem readInitAll_spec {φ : Type} (ts : List (Tracking.Track φ)) : ∀ cnt : ℕ,
    (∀ t ∈ ts, Tracking.trackIdOK cnt t) →
    (Tracking.assignedIds ts).Nodup →
    cnt ≤ (Tracking.readInitAll cnt ts).2.1 ∧
    (∀ t ∈ (Tracking.readInitAll cnt ts).1,
        Tracking.trackIdOK (Tracking.readInitAll cnt ts).2.1 t) ∧
    (Tracking.assignedIds (Tracking.readInitAll cnt ts).1).Nodup ∧
    (∀ i ∈ Tracking.assignedIds (Tracking.readInitAll cnt ts).1,
        i ∈ Tracking.assignedIds ts ∨
          (cnt < i ∧ i ≤ (Tracking.readInitAll cnt ts).2.1)) := by
  induction ts with
  | nil =>
    intro cnt _ _
    exact ⟨le_refl _, fun t ht => absurd ht (List.not_mem_nil t), List.nodup_nil,
      fun i hi => absurd hi (List.not_mem_nil i)⟩
  | cons t ts ih =>
    intro cnt hok hnd
    have hokt := hok t (List.mem_cons_self t ts)
    have hokts : ∀ t' ∈ ts, Tracking.trackIdOK cnt t' :=
      fun t' ht' => hok t' (List.mem_cons_of_mem t ht')
    simp only [Tracking.readInitAll]
    by_cases hc : t.initializing_flag ∧
        ((t.min_drop_life + t.max_drop_life : ℚ) / 2 < (t.detection_count : ℚ))
    · -- the read flips the track and assigns id cnt + 1
      simp only [Tracking.initializingRead, if_pos hc]
      have hidnone : t.id = none := hokt.1 hc.1
      have hnd' : (Tracking.assignedIds ts).Nodup := by
        rw [assignedIds_cons, hidnone] at hnd
        exact hnd
      have hts1 : ∀ t' ∈ ts, Tracking.trackIdOK (cnt + 1) t' :=
        fun t' ht' => trackIdOK_mono (Nat.le_succ cnt) (hokts t' ht')
      obtain ⟨h1, h2, h3, h4⟩ := ih (cnt + 1) hts1 hnd'
      refine ⟨le_trans (Nat.le_succ cnt) h1, ?_, ?_, ?_⟩
      · intro t' ht'
        rcases List.mem_cons.mp ht' with rfl | ht'
        · refine ⟨fun hf => ?_, fun _ => ⟨cnt + 1, rfl, by omega, h1⟩⟩
          simp at hf
        · exact h2 t' ht'
      · rw [assignedIds_cons]
        simp only
        refine List.nodup_cons.mpr ⟨?_, h3⟩
        intro hmem
        rcases h4 _ hmem with hold | ⟨hfr, _⟩
        · have := (assignedIds_le hokts _ hold).2
          omega
        · omega
      · intro i hi
        rw [assignedIds_cons] at hi
        simp only at hi
        rcases List.mem_cons.mp hi with rfl | hi
        · exact Or.inr ⟨Nat.lt_succ_self cnt, h1⟩
        · rcases h4 i hi with hold | ⟨hfr, hle⟩
          · left
            rw [assignedIds_cons, hidnone]
            exact hold
          · exact Or.inr ⟨by omega, hle⟩
    · -- the read leaves the track and the counter unchanged
      simp only [Tracking.initializingRead, if_neg hc]
      have hnd' : (Tracking.assignedIds ts).Nodup := by
        rw [assignedIds_cons] at hnd
        cases hid : t.id with
        | none => rw [hid] at hnd; exact hnd
        | some j =>
          rw [hid] at hnd
          exact (List.nodup_cons.mp hnd).2
      obtain ⟨h1, h2, h3, h4⟩ := ih cnt hokts hnd'
      refine ⟨h1, ?_, ?_, ?_⟩
      · intro t' ht'
        rcases List.mem_cons.mp ht' with rfl | ht'
        · exact trackIdOK_mono h1 hokt
        · exact h2 t' ht'
      · rw [assignedIds_cons]
        cases hid : t.id with
        | none => exact h3
        | some j =>
          refine List.nodup_cons.mpr ⟨?_, h3⟩
          intro hmem
          rcases h4 _ hmem with hold | ⟨hfr, _⟩
          · rw [assignedIds_cons, hid] at hnd
            exact (List.nodup_cons.mp hnd).1 hold
          · have := (trackIdOK_id_le hokt hid).2
            omega
      · intro i hi
        rw [assignedIds_cons] at hi
        cases hid : t.id with
        | none =>
          rw [hid] at hi
          rcases h4 i hi with hold | hfr
          · left
            rw [assignedIds_cons, hid]
            exact hold
          · exact Or.inr hfr
        | some j =>
          rw [hid] at hi
          rcases List.mem_cons.mp hi with rfl | hi
          · left
            rw [assignedIds_cons, hid]
            exact List.mem_cons_self _ _
          · rcases h4 i hi with hold | hfr
            · left
              rw [assignedIds_cons, hid]
              exact List.mem_cons_of_mem _ hold
            · exact Or.inr hfr

/-- Run-level id discipline of one `Tracker.update`: the invariant is
preserved, the id counter never decreases, and every id in the new state
is either an old id or fresh — strictly above the old counter. -/
theorem update_inv_aux {φ : Type} (kf : Tracking.KF φ)
    (dist : Tracking.Detection → Tracking.Track φ → ℚ)
    (st : Tracking.TrackerState φ) (dets : Option (List Tracking.Detection))
    (hnd : (Tracking.assignedIds st.tracked_objects).Nodup)
    (hok : ∀ t ∈ st.tracked_objects, Tracking.trackIdOK st.trackCount t) :
    Tracking.trackerInv (Tracking.Tracker.update kf dist st dets).1 ∧
    st.trackCount ≤ (Tracking.Tracker.update kf dist st dets).1.trackCount ∧
    ∀ i ∈ Tracking.assignedIds (Tracking.Tracker.update kf dist st dets).1.tracked_objects,
      i ∈ Tracking.assignedIds st.tracked_objects ∨
        (st.trackCount < i ∧
          i ≤ (Tracking.Tracker.update kf dist st dets).1.trackCount) := by
  set L0 := st.tracked_objects.filter Tracking.hasMomentum with hL0
  set L1 := L0.map (Tracking.tracker_step kf) with hL1
  set r1 := Tracking.readInitAll st.trackCount L1 with hr1
  set u1 := Tracking.update_tracks dist st.distance_threshold kf
    (Tracking.maskSelect (r1.2.2.map (fun b => !b)) r1.1) dets with hu1
  set live3 := Tracking.scatterMask (r1.2.2.map (fun b => !b)) r1.1 u1.1 with hlive3
  set r2 := Tracking.readInitAll r1.2.1 live3 with hr2
  set u2 := Tracking.update_tracks dist st.distance_threshold kf
    (Tracking.maskSelect r2.2.2 r2.1) (some u1.2) with hu2
  set live5 := Tracking.scatterMask r2.2.2 r2.1 u2.1 with hlive5
  set live6 := live5 ++ u2.2.map (fun d =>
    Tracking.mkTrack kf d st.min_drop_life st.max_drop_life st.confidence_threshold)
    with hlive6
  set r3 := Tracking.readInitAll r2.2.1 live6 with hr3
  have hresT : (Tracking.Tracker.update kf dist st dets).1.tracked_objects = r3.1 := rfl
  have hresC : (Tracking.Tracker.update kf dist st dets).1.trackCount = r3.2.1 := rfl
  -- stage 0: prune keeps a sublist of the ids
  have hsub0 : (Tracking.assignedIds L0).Sublist
      (Tracking.assignedIds st.tracked_objects) :=
    List.Sublist.filterMap _ (List.filter_sublist st.tracked_objects)
  have hnd0 : (Tracking.assignedIds L0).Nodup := List.Nodup.sublist hsub0 hnd
  have hok0 : ∀ t ∈ L0, Tracking.trackIdOK st.trackCount t :=
    fun t ht => hok t (List.mem_of_mem_filter ht)
  -- stage 1: predict step
  have hA : List.Forall₂ Tracking.idEq L0 L1 :=
    forall2_idEq_map _ (tracker_step_idEq kf) L0
  have hid1 : Tracking.assignedIds L1 = Tracking.assignedIds L0 :=
    assignedIds_of_forall2 hA
  have hok1 : ∀ t ∈ L1, Tracking.trackIdOK st.trackCount t :=
    trackIdOK_of_forall2 hA hok0
  have hnd1 : (Tracking.assignedIds L1).Nodup := hid1 ▸ hnd0
  -- stage 2: first sweep of lazy reads
  obtain ⟨hc1, hok2, hnd2, hmem2⟩ := readInitAll_spec L1 st.trackCount hok1 hnd1
  rw [← hr1] at hc1 hok2 hnd2 hmem2
  -- stage 3: match pass 1
  have hB : List.Forall₂ Tracking.idEq r1.1 live3 :=
    forall2_idEq_scatter _ r1.1 u1.1 (update_tracks_idEq dist st.distance_threshold kf _ dets)
  have hid3 : Tracking.assignedIds live3 = Tracking.assignedIds r1.1 :=
    assignedIds_of_forall2 hB
  have hok3 : ∀ t ∈ live3, Tracking.trackIdOK r1.2.1 t :=
    trackIdOK_of_forall2 hB hok2
  have hnd3 : (Tracking.assignedIds live3).Nodup := hid3 ▸ hnd2
  -- stage 4: second sweep of lazy reads
  obtain ⟨hc2, hok4, hnd4, hmem4⟩ := readInitAll_spec live3 r1.2.1 hok3 hnd3
  rw [← hr2] at hc2 hok4 hnd4 hmem4
  -- stage 5: match pass 2
  have hC : List.Forall₂ Tracking.idEq r2.1 live5 :=
    forall2_idEq_scatter _ r2.1 u2.1
      (update_tracks_idEq dist st.distance_threshold kf _ (some u1.2))
  have hid5 : Tracking.assignedIds live5 = Tracking.assignedIds r2.1 :=
    assignedIds_of_forall2 hC
  have hok5 : ∀ t ∈ live5, Tracking.trackIdOK r2.2.1 t :=
    trackIdOK_of_forall2 hC hok4
  have hnd5 : (Tracking.assignedIds live5).Nodup := hid5 ▸ hnd4
  -- stage 6: spawn new initializing tracks (no ids)
  have hid6 : Tracking.assignedIds live6 = Tracking.assignedIds live5 := by
    rw [hlive6]
    simp only [Tracking.assignedIds, List.filterMap_append]
    rw [show List.filterMap (fun t : Tracking.Track φ => t.id)
        (u2.2.map (fun d => Tracking.mkTrack kf d st.min_drop_life
          st.max_drop_life st.confidence_threshold))
      = Tracking.assignedIds (u2.2.map (fun d => Tracking.mkTrack kf d
          st.min_drop_life st.max_drop_life st.confidence_threshold)) from rfl]
    rw [assignedIds_spawn, List.append_nil]
  have hok6 : ∀ t ∈ live6, Tracking.trackIdOK r2.2.1 t := by
    intro t ht
    rw [hlive6] at ht
    rcases List.mem_append.mp ht with ht | ht
    · exact hok5 t ht
    · obtain ⟨d, _, rfl⟩ := List.mem_map.mp ht
      refine ⟨fun _ => rfl, fun hf => ?_⟩
      simp [Tracking.mkTrack] at hf
  have hnd6 : (Tracking.assignedIds live6).Nodup := hid6 ▸ hnd5
  -- stage 7: final sweep of lazy reads
  obtain ⟨hc3, hok7, hnd7, hmem7⟩ := readInitAll_spec live6 r2.2.1 hok6 hnd6
  rw [← hr3] at hc3 hok7 hnd7 hmem7
  refine ⟨⟨?_, ?_⟩, ?_, ?_⟩
  · rw [hresT]
    exact hnd7
  · rw [hresT, hresC]
    exact hok7
  · rw [hresC]
    omega
  · intro i hi
    rw [hresT] at hi
    rw [hresC]
    rcases hmem7 i hi with h6 | ⟨hfr, hle⟩
    · rw [hid6, hid5] at h6
      rcases hmem4 i h6 with h3 | ⟨hfr, hle⟩
      · rw [hid3] at h3
        rcases hmem2 i h3 with h1 | ⟨hfr, hle⟩
        · rw [hid1] at h1
          exact Or.inl (hsub0.subset h1)
        · exact Or.inr ⟨hfr, by omega⟩
      · exact Or.inr ⟨by omega, by omega⟩
    · exact Or.inr ⟨by omega, by omega⟩

/-- Claim C3: a track stops being initializing exactly when its
`detection_count` exceeds `(min_drop_life + max_drop_life) / 2`, the
transition firing lazily on a property read; at that moment the track
receives id `count + 1` from the monotonically increasing counter; an
assigned id is never changed by any later read, step or add; and over a
whole `Tracker.update`, assigned ids stay pairwise distinct, the counter
never decreases, and every id is either an old one or fresh (strictly
above the old counter), so ids are never reused by another track. -/
theorem track_ids_unique_and_permanent {φ : Type} (kf : Tracking.KF φ)
    (dist : Tracking.Detection → Tracking.Track φ → ℚ)
    (st : Tracking.TrackerState φ) (dets : Option (List Tracking.Detection))
    (hinv : Tracking.trackerInv st) :
    (∀ (t : Tracking.Track φ) (cnt : ℕ),
        ((Tracking.initializingRead t cnt).2.1.initializing_flag = false ↔
          (t.initializing_flag = false ∨
            ((t.min_drop_life + t.max_drop_life : ℚ) / 2 < (t.detection_count : ℚ))))) ∧
    (∀ (t : Tracking.Track φ) (cnt : ℕ), t.initializing_flag = true →
        ((t.min_drop_life + t.max_drop_life : ℚ) / 2 < (t.detection_count : ℚ)) →
        (Tracking.initializingRead t cnt).2.1.id = some (cnt + 1) ∧
          (Tracking.initializingRead t cnt).2.2 = cnt + 1) ∧
    (∀ (t : Tracking.Track φ) (cnt : ℕ) (i : ℕ),
        t.initializing_flag = false → t.id = some i →
        (Tracking.initializingRead t cnt).2.1.id = some i ∧
        (Tracking.tracker_step kf t).id = some i ∧
        ∀ d, (Tracking.Track.add kf t d).id = some i) ∧
    (Tracking.trackerInv (Tracking.Tracker.update kf dist st dets).1 ∧
     st.trackCount ≤ (Tracking.Tracker.update kf dist st dets).1.trackCount ∧
     ∀ i ∈ Tracking.assignedIds
         (Tracking.Tracker.update kf dist st dets).1.tracked_objects,
       i ∈ Tracking.assignedIds st.tracked_objects ∨
         (st.trackCount < i ∧
           i ≤ (Tracking.Tracker.update kf dist st dets).1.trackCount)) := by
  refine ⟨?_, ?_, ?_, update_inv_aux kf dist st dets hinv.1 hinv.2⟩
  · intro t cnt
    by_cases hc : t.initializing_flag ∧
        ((t.min_drop_life + t.max_drop_life : ℚ) / 2 < (t.detection_count : ℚ))
    · simp only [Tracking.initializingRead, if_pos hc]
      simp [hc.2]
    · simp only [Tracking.initializingRead, if_neg hc]
      constructor
      · exact Or.inl
      · rintro (h | h)
        · exact h
        · cases hbf : t.initializing_flag with
          | false => rfl
          | true => exact absurd ⟨hbf, h⟩ hc
  · intro t cnt hflag hcond
    have hc : t.initializing_flag ∧
        ((t.min_drop_life + t.max_drop_life : ℚ) / 2 < (t.detection_count : ℚ)) :=
      ⟨hflag, hcond⟩
    simp [Tracking.initializingRead, if_pos hc]
  · intro t cnt i hflag hid
    have hc : ¬(t.initializing_flag ∧
        ((t.min_drop_life + t.max_drop_life : ℚ) / 2 < (t.detection_count : ℚ))) := by
      rintro ⟨h1, _⟩
      rw [hflag] at h1
      cases h1
    simp only [Tracking.initializingRead, if_neg hc]
    exact ⟨hid, hid, fun d => ((add_idEq kf t d).1).trans hid⟩

/-- Witness for C3 at a fresh empty tracker. -/
theorem track_ids_unique_and_permanent_witness :
    Tracking.trackerInv Tracking.st0 ∧
    ((∀ (t : Tracking.Track Unit) (cnt : ℕ),
        ((Tracking.initializingRead t cnt).2.1.initializing_flag = false ↔
          (t.initializing_flag = false ∨
            ((t.min_drop_life + t.max_drop_life : ℚ) / 2 < (t.detection_count : ℚ))))) ∧
    (∀ (t : Tracking.Track Unit) (cnt : ℕ), t.initializing_flag = true →
        ((t.min_drop_life + t.max_drop_life : ℚ) / 2 < (t.detection_count : ℚ)) →
        (Tracking.initializingRead t cnt).2.1.id = some (cnt + 1) ∧
          (Tracking.initializingRead t cnt).2.2 = cnt + 1) ∧
    (∀ (t : Tracking.Track Unit) (cnt : ℕ) (i : ℕ),
        t.initializing_flag = false → t.id = some i →
        (Tracking.initializingRead t cnt).2.1.id = some i ∧
        (Tracking.tracker_step Tracking.kfUnit t).id = some i ∧
        ∀ d, (Tracking.Track.add Tracking.kfUnit t d).id = some i) ∧
    (Tracking.trackerInv
        (Tracking.Tracker.update Tracking.kfUnit Tracking.dist0 Tracking.st0
          (some [Tracking.det00])).1 ∧
     Tracking.st0.trackCount ≤
       (Tracking.Tracker.update Tracking.kfUnit Tracking.dist0 Tracking.st0
         (some [Tracking.det00])).1.trackCount ∧
     ∀ i ∈ Tracking.assignedIds
         (Tracking.Tracker.update Tracking.kfUnit Tracking.dist0 Tracking.st0
           (some [Tracking.det00])).1.tracked_objects,
       i ∈ Tracking.assignedIds Tracking.st0.tracked_objects ∨
         (Tracking.st0.trackCount < i ∧
           i ≤ (Tracking.Tracker.update Tracking.kfUnit Tracking.dist0 Tracking.st0
             (some [Tracking.det00])).1.trackCount))) :=
  ⟨⟨List.nodup_nil, fun t ht => absurd ht (List.not_mem_nil t)⟩,
   track_ids_unique_and_permanent Tracking.kfUnit Tracking.dist0 Tracking.st0
     (some [Tracking.det00])
     ⟨List.nodup_nil, fun t ht => absurd ht (List.not_mem_nil t)⟩⟩

end ZeroSleap
